import Mathlib

/-!
# Beckhoff EL2xxx digital output terminals, ATV320 process data records, fixed strings
and the state machine interface

A shallow embedding of
`exes/ethercat/inc/public/tfc/ec/devices/beckhoff/EL2xxx.hpp`,
`exes/ethercat/inc/public/tfc/ec/devices/schneider/atv320/pdo.hpp`,
`libs/stx/inc/public/tfc/stx/basic_fixed_string.hpp` and
`libs/dbus_util/inc/public/tfc/dbus/sml_interface.hpp`.

* `std::bitset<size>` is a list of `size` booleans, index 0 first.
* A member function that can throw returns its outcome together with the object
  as it is after the call.
* Template parameters of `el2xxx` are the fields of `terminal`; the
  `manager_client_type` parameter carries no data and is dropped.
* A character of a fixed string is its code, a natural number.
* A C++ type that a function template of the state machine interface is instantiated with
  is a value of `sml.type_t`, `sml.event_t`, `sml.guard_t` or `sml.transition`, and the
  function template is a function of that value.
-/

namespace beckhoff

/-- Exceptions raised by the standard library calls used in the header. -/
inductive Exception where
  | out_of_range
  deriving DecidableEq, Repr

/-- The value of a `std::bitset<size>`: exactly `size` bits, bit 0 first. -/
structure bitset (size : Nat) where
  bits : List Bool
  size_eq : bits.length = size
  deriving DecidableEq, Repr

/-- The default constructor of `std::bitset<size>`: every bit is zero. -/
def bitset.init (size : Nat) : bitset size :=
  ⟨List.replicate size false, List.length_replicate size false⟩

/-- The member `std::bitset::test` read at an index the caller keeps in range. -/
def bitset.test {size : Nat} (b : bitset size) (pos : Nat) : Bool :=
  b.bits.getD pos false

/-- The member `std::bitset<size>::set(pos, value)`: throws `std::out_of_range`
when `pos` does not name a bit, and otherwise stores `value` in bit `pos`. -/
def bitset.set {size : Nat} (b : bitset size) (pos : Nat) (value : Bool) :
    Except Exception (bitset size) :=
  if pos < size then
    Except.ok ⟨b.bits.set pos value, by rw [List.length_set]; exact b.size_eq⟩
  else
    Except.error Exception.out_of_range

/-- The template arguments of one instantiation of `el2xxx`:
`size`, `entries`, `pc` and `name_v`. -/
structure terminal where
  size : Nat
  entries : List Nat
  pc : Nat
  name_v : String
  deriving DecidableEq, Repr

/-- The condition of `static_assert(size == 4 || size == 8 || size == 16)`. -/
def valid_size (size : Nat) : Prop := size = 4 ∨ size = 8 ∨ size = 16

instance (size : Nat) : Decidable (valid_size size) := by
  unfold valid_size; infer_instance

/-- What the compiler demands of an instantiation: the static assertion on `size`
holds and `entries` has the type `std::array<std::size_t, size>`. -/
def terminal.well_formed (cfg : terminal) : Prop :=
  valid_size cfg.size ∧ cfg.entries.length = cfg.size

instance (cfg : terminal) : Decidable cfg.well_formed := by
  unfold terminal.well_formed; infer_instance

/-- The array extent in `using output_pdo = std::array<std::uint8_t, (size / 9) + 1>`. -/
def output_pdo_size (size : Nat) : Nat := (size / 9) + 1

/-- The type `output_pdo`: an array of `(size / 9) + 1` bytes. -/
structure output_pdo (size : Nat) where
  data : List Nat
  size_eq : data.length = output_pdo_size size
  deriving DecidableEq, Repr

/-- The constant `vendor_id`. -/
def vendor_id : Nat := 0x2

/-- The alias `el2794`. -/
def el2794 : terminal := ⟨4, [1, 5, 4, 8], 0xaea3052, "EL2794"⟩

/-- The alias `el2004`. -/
def el2004 : terminal := ⟨4, [1, 5, 4, 8], 0x7d43052, "EL2004"⟩

/-- The alias `el2008`. -/
def el2008 : terminal := ⟨8, [1, 5, 2, 6, 3, 7, 4, 8], 0x7d83052, "EL2008"⟩

/-- The alias `el2809`. -/
def el2809 : terminal :=
  ⟨16, [1, 2, 3, 4, 5, 6, 7, 8, 9, 10, 11, 12, 13, 14, 15, 16], 0xaf93052, "EL2809"⟩

/-- The terminal types the header defines. -/
def family : List terminal := [el2794, el2004, el2008, el2809]

/-- One element of `bool_receivers_`: the identifier the slot is registered under
and the channel position its callback writes. -/
structure slot where
  name : String
  position : Nat
  deriving DecidableEq, Repr

/-- The data members of `el2xxx`, with the slave index held by `base`. -/
structure el2xxx (cfg : terminal) where
  slave_index : Nat
  output_states_ : bitset cfg.size
  bool_receivers_ : List slot
  deriving DecidableEq, Repr

/-- The member `set_output`: `output_states_.set(position, value)`. An exception
leaves the object as it was. -/
def el2xxx.set_output {cfg : terminal} (self : el2xxx cfg) (position : Nat) (value : Bool) :
    Except Exception Unit × el2xxx cfg :=
  match self.output_states_.set position value with
  | Except.ok b => (Except.ok (), { self with output_states_ := b })
  | Except.error e => (Except.error e, self)

/-- The number whose binary digits are the given bits, bit 0 first. -/
def pack_bits : List Bool → Nat
  | [] => 0
  | b :: bs => 2 * pack_bits bs + (if b then 1 else 0)

/-- Bit `p` of a frame, counting from bit 0 of byte 0 upwards through the bytes. -/
def output_pdo.test {size : Nat} (frame : output_pdo size) (p : Nat) : Bool :=
  (frame.data.getD (p / 8) 0).testBit (p % 8)

/-- Modelled from the spec: the definition of `pdo_cycle` is missing from the header.
The spec (4.1, 8) has it serialize the output state vector "using the terminal's
entries-defined bit order", putting the bit of channel `i` "at the wire position
given by `entries[i]`", in a frame "produced fresh every cycle". The vendor table
that turns a pin label into a bit position of the frame is the argument `wire`.
This is the value of wire bit `p`: set when some channel whose pin label is wired to `p`
is commanded on. -/
def wire_bit (cfg : terminal) (wire : Nat → Nat) (states : bitset cfg.size) (p : Nat) : Bool :=
  (List.range cfg.size).any fun i => decide (wire (cfg.entries.getD i 0) = p) && states.test i

/-- Modelled from the spec: the definition of `pdo_cycle` is missing from the header.
The frame of `(size / 9) + 1` bytes whose bit `p` is `wire_bit p`, eight bits to a byte. -/
def encode (cfg : terminal) (wire : Nat → Nat) (states : bitset cfg.size) : output_pdo cfg.size :=
  ⟨(List.range (output_pdo_size cfg.size)).map fun b =>
      pack_bits ((List.range 8).map fun k => wire_bit cfg wire states (8 * b + k)),
    by simp⟩

/-- Modelled from the spec: the decoder of "decode(encode(state)) == state" (8), which
the header does not have. Channel `i` is read back from the wire position of `entries[i]`. -/
def decode (cfg : terminal) (wire : Nat → Nat) (frame : output_pdo cfg.size) : bitset cfg.size :=
  ⟨(List.range cfg.size).map fun i => frame.test (wire (cfg.entries.getD i 0)), by simp⟩

/-- Modelled from the spec: the definition of `pdo_cycle` is missing from the header, which
only declares `void pdo_cycle(std::span<std::uint8_t>, output_pdo& output) noexcept`.
By the spec (3, 4.1) the input bytes of a pure output terminal are accepted and unused,
the output state vector is read, and the frame is written anew from it. The result is the
object after the call and the contents of `output` after the call. -/
def el2xxx.pdo_cycle {cfg : terminal} (wire : Nat → Nat) (self : el2xxx cfg)
    (_input : List Nat) (_output : output_pdo cfg.size) : el2xxx cfg × output_pdo cfg.size :=
  (self, encode cfg wire self.output_states_)

/-- Modelled from the spec: the identifier "{device_name}.{entries[i]}" (4.1, 6) under
which the binding of channel `i` is registered. -/
def channel_name (cfg : terminal) (i : Nat) : String :=
  cfg.name_v ++ "." ++ toString (cfg.entries.getD i 0)

/-- Modelled from the spec: the definition of the constructor
`el2xxx(asio::io_context&, manager_client_type&, uint16_t slave_index)` is missing from
the header. By the spec (4.1) it allocates `channel_count` bindings, binding `i` registered
under "{device_name}.{entries[i]}", and "channels default to `false`"; `output_states_`
has no initializer of its own, so it is default constructed. The executor and the
registry client carry no data of the device and are left out. -/
def el2xxx.construct (cfg : terminal) (slave_index : Nat) : el2xxx cfg :=
  { slave_index := slave_index
    output_states_ := bitset.init cfg.size
    bool_receivers_ := (List.range cfg.size).map fun i => ⟨channel_name cfg i, i⟩ }

/-- What the argument `wire` of `pdo_cycle` must satisfy to be a wiring table of the
terminal: the pin labels of different channels go to different bit positions, and every
position lies inside the frame. -/
def wiring (cfg : terminal) (wire : Nat → Nat) : Prop :=
  (∀ i, i < cfg.size → ∀ j, j < cfg.size →
      wire (cfg.entries.getD i 0) = wire (cfg.entries.getD j 0) → i = j) ∧
  (∀ i, i < cfg.size → wire (cfg.entries.getD i 0) < 8 * output_pdo_size cfg.size)

instance (cfg : terminal) (wire : Nat → Nat) : Decidable (wiring cfg wire) := by
  unfold wiring; infer_instance

end beckhoff

namespace atv320

/-- One data member of a record: its name, the size and the alignment of its type in
bytes, and whether the integer it holds is signed. -/
structure member where
  name : String
  size : Nat
  align : Nat
  is_signed : Bool
  deriving DecidableEq, Repr

/-- The least multiple of `align` that is at least `offset`. -/
def round_up (offset align : Nat) : Nat := (offset + align - 1) / align * align

/-- The offset one past the last member when the members are laid out in declaration
order, each at the next offset that is a multiple of its alignment. -/
def layout_end (members : List member) : Nat :=
  members.foldl (fun offset m => round_up offset m.align + m.size) 0

/-- The alignment of a record: the largest alignment of a member. -/
def alignof (members : List member) : Nat :=
  members.foldl (fun a m => max a m.align) 1

/-- The value of `sizeof` for a record: the end of the last member, rounded up to the
alignment of the record. -/
def sizeof (members : List member) : Nat :=
  round_up (layout_end members) (alignof members)

/-- The sum of the sizes of the members, which is the size of a record without padding. -/
def packed_size (members : List member) : Nat :=
  (members.map member.size).sum

/-- Modelled from the spec: `tfc::ec::cia_402::status_word` is declared outside the header;
the spec (3) gives "status_word: 16-bit opaque code". -/
def status_word (name : String) : member := ⟨name, 2, 2, false⟩

/-- Modelled from the spec: `cia_402::control_word` is declared outside the header;
the spec (3) gives "control_word: 16-bit opaque code". -/
def control_word (name : String) : member := ⟨name, 2, 2, false⟩

/-- Modelled from the spec: `decifrequency_signed` is declared in `settings.hpp`, outside the
header; the spec (3) gives "frequency: signed fixed-point deci-Hz" held as an integer, and
with the input record at 12 bytes "no padding" (6) in six members it has 16 bits. -/
def decifrequency_signed (name : String) : member := ⟨name, 2, 2, true⟩

/-- The type `uint16_t`. -/
def uint16_t (name : String) : member := ⟨name, 2, 2, false⟩

/-- The type `int16_t`. -/
def int16_t (name : String) : member := ⟨name, 2, 2, true⟩

/-- The record `input_t`. -/
def input_t : List member :=
  [status_word "status_word", decifrequency_signed "frequency", uint16_t "current",
   uint16_t "digital_inputs", int16_t "analog_input", uint16_t "drive_state"]

/-- The record `output_t`. -/
def output_t : List member :=
  [control_word "control", decifrequency_signed "frequency", uint16_t "digital_outputs"]

/-- The two orders in which the bytes of a 16 bit member can stand in the frame. -/
inductive byte_order where
  | little
  | big
  deriving DecidableEq, Repr

/-- The values of the members of `input_t`, in declaration order. -/
structure input_value where
  status_word : Nat
  frequency : Int
  current : Nat
  digital_inputs : Nat
  analog_input : Int
  drive_state : Nat
  deriving DecidableEq, Repr

/-- The values of the members of `output_t`, in declaration order. -/
structure output_value where
  control : Nat
  frequency : Int
  digital_outputs : Nat
  deriving DecidableEq, Repr

/-- The range of a `uint16_t`. -/
def is_uint16 (v : Nat) : Prop := v < 65536

/-- The range of an `int16_t`. -/
def is_int16 (v : Int) : Prop := -32768 ≤ v ∧ v < 32768

instance (v : Nat) : Decidable (is_uint16 v) := by unfold is_uint16; infer_instance

instance (v : Int) : Decidable (is_int16 v) := by unfold is_int16; infer_instance

/-- Every member of an input record holds a value of its 16 bit type. -/
def input_value.valid (r : input_value) : Prop :=
  is_uint16 r.status_word ∧ is_int16 r.frequency ∧ is_uint16 r.current ∧
  is_uint16 r.digital_inputs ∧ is_int16 r.analog_input ∧ is_uint16 r.drive_state

instance (r : input_value) : Decidable r.valid := by
  unfold input_value.valid; infer_instance

/-- Every member of an output record holds a value of its 16 bit type. -/
def output_value.valid (r : output_value) : Prop :=
  is_uint16 r.control ∧ is_int16 r.frequency ∧ is_uint16 r.digital_outputs

instance (r : output_value) : Decidable r.valid := by
  unfold output_value.valid; infer_instance

/-- The two's complement bit pattern of a signed 16 bit integer. -/
def to_unsigned (v : Int) : Nat := (v % 65536).toNat

/-- The signed 16 bit integer that has the given bit pattern. -/
def to_signed (u : Nat) : Int := if u % 65536 < 32768 then (u % 65536 : Nat) else (u % 65536 : Nat) - 65536

/-- Modelled from the spec: the codec of the records is outside the header. The spec (4.2)
has a "fixed-size binary encode/decode between in-memory records and wire bytes" with
widths and signedness fixed and integers kept as integers; it does not give the byte
order, which is the argument `order`. These are the two bytes of an unsigned member. -/
def encode_u16 (order : byte_order) (v : Nat) : List Nat :=
  match order with
  | byte_order.little => [v % 256, v / 256 % 256]
  | byte_order.big => [v / 256 % 256, v % 256]

/-- Modelled from the spec: the codec of the records is outside the header. The unsigned
member whose two bytes in the frame are `b0` and then `b1`. -/
def decode_u16 (order : byte_order) (b0 b1 : Nat) : Nat :=
  match order with
  | byte_order.little => b0 + 256 * b1
  | byte_order.big => b1 + 256 * b0

/-- Modelled from the spec: the codec of the records is outside the header. The two bytes
of a signed member, those of its two's complement bit pattern. -/
def encode_i16 (order : byte_order) (v : Int) : List Nat := encode_u16 order (to_unsigned v)

/-- Modelled from the spec: the codec of the records is outside the header. The signed
member whose two bytes in the frame are `b0` and then `b1`. -/
def decode_i16 (order : byte_order) (b0 b1 : Nat) : Int := to_signed (decode_u16 order b0 b1)

/-- Modelled from the spec: the codec of the records is outside the header. The bytes of
an input record: its members one after the other in declaration order, without padding. -/
def encode_input (order : byte_order) (r : input_value) : List Nat :=
  encode_u16 order r.status_word ++ encode_i16 order r.frequency ++
  encode_u16 order r.current ++ encode_u16 order r.digital_inputs ++
  encode_i16 order r.analog_input ++ encode_u16 order r.drive_state

/-- Modelled from the spec: the codec of the records is outside the header. The input
record held by 12 bytes; any other number of bytes is not an input record. -/
def decode_input (order : byte_order) (bytes : List Nat) : Option input_value :=
  match bytes with
  | [b0, b1, b2, b3, b4, b5, b6, b7, b8, b9, b10, b11] =>
    some
      { status_word := decode_u16 order b0 b1
        frequency := decode_i16 order b2 b3
        current := decode_u16 order b4 b5
        digital_inputs := decode_u16 order b6 b7
        analog_input := decode_i16 order b8 b9
        drive_state := decode_u16 order b10 b11 }
  | _ => none

/-- Modelled from the spec: the codec of the records is outside the header. The bytes of
an output record: its members one after the other in declaration order, without padding. -/
def encode_output (order : byte_order) (r : output_value) : List Nat :=
  encode_u16 order r.control ++ encode_i16 order r.frequency ++
  encode_u16 order r.digital_outputs

/-- Modelled from the spec: the codec of the records is outside the header. The output
record held by 6 bytes; any other number of bytes is not an output record. -/
def decode_output (order : byte_order) (bytes : List Nat) : Option output_value :=
  match bytes with
  | [b0, b1, b2, b3, b4, b5] =>
    some
      { control := decode_u16 order b0 b1
        frequency := decode_i16 order b2 b3
        digital_outputs := decode_u16 order b4 b5 }
  | _ => none

end atv320

namespace stx

/-- The class `basic_fixed_string<CharType, N>`: the array `data_` of `N + 1` characters,
each held as its code. -/
structure basic_fixed_string (N : Nat) where
  data_ : List Nat
  size_eq : data_.length = N + 1
  deriving DecidableEq, Repr

/-- The member `size`. -/
def basic_fixed_string.size {N : Nat} (_self : basic_fixed_string N) : Nat := N

/-- The member `view`: the `N` characters from `&data_[0]` on. -/
def basic_fixed_string.view {N : Nat} (self : basic_fixed_string N) : List Nat :=
  self.data_.take N

/-- The members `operator[]` and `at`, read at an index inside `data_`. -/
def basic_fixed_string.at {N : Nat} (self : basic_fixed_string N) (index : Nat) : Nat :=
  self.data_.getD index 0

/-- The default constructor: `data_{}`, every character zero. -/
def basic_fixed_string.init (N : Nat) : basic_fixed_string N :=
  ⟨List.replicate (N + 1) 0, List.length_replicate (N + 1) 0⟩

/-- The constructor from an array of `N + 1` characters: `std::copy_n(foo, N + 1, data_)`. -/
def basic_fixed_string.of_array {N : Nat} (foo : List Nat) (h : foo.length = N + 1) :
    basic_fixed_string N :=
  ⟨foo, h⟩

/-- A fixed string built from a string literal with the characters `str`: the array of the
literal is `str` and the terminating zero. -/
def fs (str : List Nat) : basic_fixed_string str.length :=
  basic_fixed_string.of_array (str ++ [0]) (by simp)

/-- The member template `operator==`: `N == M && view() == r.view()`. -/
def basic_fixed_string.eq {N M : Nat} (self : basic_fixed_string N)
    (r : basic_fixed_string M) : Bool :=
  decide (N = M) && decide (self.view = r.view)

/-- The call `std::copy(first, last, d_first)` into an array: the characters `src` of the
range are written over `dst` from index `d_first` on; the result is the array and the
iterator past the last character written. -/
def copy (src : List Nat) (dst : List Nat) (d_first : Nat) : List Nat × Nat :=
  match src with
  | [] => (dst, d_first)
  | c :: cs => copy cs (dst.set d_first c) (d_first + 1)

/-- The function `concat_fixed_string(l, r)`: a default constructed result, the range
`l.begin()` to `l.end()` copied to `result.data()`, the range of `r` copied behind it, and
`*it = {}`. -/
def concat_fixed_string {N M : Nat} (l : basic_fixed_string N) (r : basic_fixed_string M) :
    basic_fixed_string (N + M) :=
  let result := basic_fixed_string.init (N + M)
  let step1 := copy l.view result.data_ 0
  let step2 := copy r.view step1.1 step1.2
  ⟨step2.1.set step2.2 0, by
    have hcopy : ∀ (src dst : List Nat) (i : Nat), (copy src dst i).1.length = dst.length := by
      intro src
      induction src with
      | nil => intro dst i; rfl
      | cons c cs ih => intro dst i; simp only [copy, ih, List.length_set]
    rw [List.length_set, hcopy, hcopy]
    exact result.size_eq⟩

/-- The variadic `concat_fixed_string(l, r, u...)` with one further argument:
`concat_fixed_string(l, concat_fixed_string(r, u...))`. -/
def concat_fixed_string3 {N M K : Nat} (l : basic_fixed_string N) (r : basic_fixed_string M)
    (u : basic_fixed_string K) : basic_fixed_string (N + (M + K)) :=
  concat_fixed_string l (concat_fixed_string r u)

/-- The function `operator+`: `concat_fixed_string(l, r)`. -/
def basic_fixed_string.add {N M : Nat} (l : basic_fixed_string N) (r : basic_fixed_string M) :
    basic_fixed_string (N + M) :=
  concat_fixed_string l r

end stx

namespace sml

/-- A C++ type as the header looks at it: a `boost::sml::back::sm<back::sm_policy<T>>`
over the type `T`, or any other type, given by what tells it from other types, by its
static member `name` of type `std::string_view` when it has one, and by the text of
`boost::sml::aux::string<type_t>{}.c_str()`. -/
inductive type_t where
  | class_ (id : String) (name : Option String) (c_str : String)
  | sm (inner : type_t)
  deriving DecidableEq, Repr

/-- The function `get_name<type_t>()`. -/
def get_name : type_t → String
  | type_t.sm inner => get_name inner
  | type_t.class_ _ (some name) _ => name
  | type_t.class_ _ none c_str => c_str

/-- The type of an event given to the logger: a specialization of `back::on_entry` or of
`back::on_exit` with its two template arguments; a specialization
`event_t<first_t, second_t>` of any other template of two type parameters, given by the
type `t` itself and its two template arguments; or a type `t` that is no specialization of
a template of two type parameters. -/
inductive event_t where
  | on_entry (first second : type_t)
  | on_exit (first second : type_t)
  | pair (t first second : type_t)
  | other (t : type_t)
  deriving DecidableEq, Repr

/-- The first overload of `extract_event_type`, which takes an
`event_t<first_t, second_t> const&`: `get_name<second_t>()`. -/
def extract_event_type_pair (second : type_t) : String := get_name second

/-- The second overload of `extract_event_type`, which takes an `event_t const&` of any
type: for a specialization of `back::on_entry` or `back::on_exit` the call of the first
overload, and otherwise `get_name<event_t>()`. -/
def extract_event_type_any : event_t → String
  | event_t.on_entry _ second => extract_event_type_pair second
  | event_t.on_exit _ second => extract_event_type_pair second
  | event_t.pair t _ _ => get_name t
  | event_t.other t => get_name t

/-- The call `detail::extract_event_type(event)` in `log_process_event`. For an event of a
type `event_t<first_t, second_t>` both overloads fit and the first, the more specialized of
the two, is the one called; for an event of any other type only the second fits. -/
def extract_event_type : event_t → String
  | event_t.on_entry _ second => extract_event_type_pair second
  | event_t.on_exit _ second => extract_event_type_pair second
  | event_t.pair _ _ second => extract_event_type_pair second
  | event_t.other t => extract_event_type_any (event_t.other t)

/-- The member `std::string::contains`: whether `pattern` occurs in `s` as a run of
consecutive characters. -/
def contains (s pattern : String) : Bool :=
  s.data.tails.any fun t => pattern.data.isPrefixOf t

/-- The function `get_filtered_name<type_t>()`. -/
def get_filtered_name (t : type_t) : String :=
  let filtered_name := get_name t
  if contains filtered_name "(lambda" || contains filtered_name "<lambda" then "lambda"
  else filtered_name

mutual
/-- The type of a guard of a transition: `aux::zero_wrapper<front::not_<T>>`,
`aux::zero_wrapper<front::and_<T, Ts...>>`, `aux::zero_wrapper<front::or_<T, Ts...>>`, or
any other type. -/
inductive guard_t where
  | not_ (inner : type_t)
  | and_ (ts : guard_pack)
  | or_ (ts : guard_pack)
  | other (t : type_t)
/-- A template parameter pack `T` or `T, Ts...` of guard types. -/
inductive guard_pack where
  | one (t : guard_t)
  | cons (t : guard_t) (ts : guard_pack)
end

/-- The guard types of a pack, first to last. -/
def guard_pack.to_list : guard_pack → List guard_t
  | guard_pack.one t => [t]
  | guard_pack.cons t ts => t :: ts.to_list

mutual
/-- The function `get_guard_name<type_t>()`. -/
def get_guard_name : guard_t → String
  | guard_t.not_ inner => "!" ++ get_name inner
  | guard_t.and_ ts => and_guard.get_name ts
  | guard_t.or_ ts => or_guard.get_name ts
  | guard_t.other t => get_filtered_name t
/-- The two specializations of `and_guard` with their member `get_name`. -/
def and_guard.get_name : guard_pack → String
  | guard_pack.one t => get_guard_name t
  | guard_pack.cons t ts => get_guard_name t ++ " && " ++ and_guard.get_name ts
/-- The two specializations of `or_guard` with their member `get_name`. -/
def or_guard.get_name : guard_pack → String
  | guard_pack.one t => get_guard_name t
  | guard_pack.cons t ts => get_guard_name t ++ " || " ++ or_guard.get_name ts
end

/-- The class `node`. -/
structure node where
  color_ : String
  entry_ : String
  exit_ : String
  deriving DecidableEq, Repr

/-- The defaulted constructor `node()`: three empty strings. -/
def node.init : node := ⟨"", "", ""⟩

/-- The member `node::get_dot_format`. -/
def node.get_dot_format (self : node) (label : String) : String :=
  let entry_dot_format := if self.entry_ = "" then "" else " \n entry / " ++ self.entry_ ++ " "
  let exit_dot_format := if self.exit_ = "" then "" else " \n exit / " ++ self.exit_ ++ " "
  let color_dot_format := if self.color_ = "" then "" else " , color = \"" ++ self.color_ ++ "\""
  label ++ " [ label = \" " ++ label ++ " " ++ entry_dot_format ++ " " ++ exit_dot_format ++
    " \" " ++ color_dot_format ++ " ]"

/-- The member `node::set_color`. -/
def node.set_color (self : node) (color : String) : node := { self with color_ := color }

/-- The member `node::set_entry`. -/
def node.set_entry (self : node) (entry : String) : node := { self with entry_ := entry }

/-- The member `node::set_exit`. -/
def node.set_exit (self : node) (exit : String) : node := { self with exit_ := exit }

/-- The statement `nodes[key].f(...)` on a `std::map<std::string, node>`, held as the list
of its elements in key order: `operator[]` finds the element with the key or inserts a
default constructed node at the place of the key, and `f` is applied to that node. -/
def nodes_at (nodes : List (String × node)) (key : String) (f : node → node) :
    List (String × node) :=
  match nodes with
  | [] => [(key, f node.init)]
  | (k, n) :: rest =>
    if key = k then (k, f n) :: rest
    else if key < k then (key, f node.init) :: (k, n) :: rest
    else (k, n) :: nodes_at rest key f

/-- The member `event` of a transition: `boost::sml::anonymous`,
`back::on_entry<_, _>`, `back::on_exit<_, _>`, or any other type. -/
inductive transition_event where
  | anonymous
  | on_entry
  | on_exit
  | event (t : type_t)
  deriving DecidableEq, Repr

/-- One element of the transition table of a state machine: the member types `src_state`,
`dst_state`, `event`, `guard` (none for `front::always`, so that `has_guard` is whether
there is one) and `action` (none for `front::none`, else the type `action::type`), and the
member `initial`. -/
structure transition where
  src_state : type_t
  dst_state : type_t
  event : transition_event
  guard : Option guard_t
  action : Option type_t
  initial : Bool

/-- The name `get_name<typename type_t::event>()`. The header asks for it only when the
event is none of `anonymous`, `on_entry<_, _>` and `on_exit<_, _>`; for these three the
text is left empty. -/
def transition.event_name (t : transition) : String :=
  match t.event with
  | transition_event.event e => get_name e
  | _ => ""

/-- The function `get_action_name<type_t>()`. The header asks for it only when the
transition has an action; without one the text is left empty. -/
def get_action_name (t : transition) : String :=
  match t.action with
  | some a => get_filtered_name a
  | none => ""

/-- The variable template `is_likely_current_transition`. -/
def is_likely_current_transition (t : transition) (src dst : type_t) : Bool :=
  decide (dst = t.dst_state) && decide (src = t.src_state)

/-- The function `get_color`. -/
def get_color (t : transition) (src dst : type_t) (has_event : Bool) (last_event : String) :
    String :=
  if is_likely_current_transition t src dst then
    if has_event && decide (t.event_name = last_event) then "gold" else ""
  else if dst = t.src_state then "lightblue"
  else ""

/-- The function `dump_transition`: the buffer and the nodes after the call. -/
def dump_transition (t : transition) (src dst : type_t) (last_event : String)
    (buffer : String) (nodes : List (String × node)) : String × List (String × node) :=
  let src_state := get_name t.src_state
  let dst_state := if get_name t.dst_state = "terminate" then "stop" else get_name t.dst_state
  let buffer := if t.initial then buffer ++ "start -> " ++ src_state ++ "\n" else buffer
  let has_event := decide (t.event ≠ transition_event.anonymous)
  let has_action := t.action.isSome
  let is_entry := decide (t.event = transition_event.on_entry)
  let is_exit := decide (t.event = transition_event.on_exit)
  let buffer :=
    if !is_entry && !is_exit then
      let color := get_color t src dst has_event last_event
      let guard :=
        match t.guard with
        | some g => "[" ++ get_guard_name g ++ "]"
        | none => ""
      let color_attr := if color = "" then "" else ", color=\"" ++ color ++ "\""
      let event_label :=
        if has_event && has_action then t.event_name ++ " / " ++ get_action_name t
        else if has_event then t.event_name
        else ""
      buffer ++ (src_state ++ " -> " ++ dst_state ++ " [label=\"" ++ event_label ++ " " ++
        guard ++ "\"" ++ color_attr ++ "]\n")
    else buffer
  let nodes :=
    if has_action && is_entry then
      nodes_at nodes src_state fun n => n.set_entry (get_action_name t)
    else nodes
  let nodes :=
    if has_action && is_exit then
      nodes_at nodes src_state fun n => n.set_exit (get_action_name t)
    else nodes
  let nodes :=
    if is_likely_current_transition t src dst then
      nodes_at nodes dst_state fun n => n.set_color "green"
    else nodes
  (buffer ++ "\n", nodes)

/-- The function `dump_transitions`: `dump_transition` for each transition of the table,
first to last. -/
def dump_transitions (transitions : List transition) (src dst : type_t) (last_event : String)
    (buffer : String) (nodes : List (String × node)) : String × List (String × node) :=
  transitions.foldl (fun state t => dump_transition t src dst last_event state.1 state.2)
    (buffer, nodes)

/-- The function `dump`, with the transitions of `state_machine_t` as an argument. -/
def dump (transitions : List transition) (src dst : type_t) (last_event : String) : String :=
  let state := dump_transitions transitions src dst last_event "digraph \x7b\n\n" []
  let buffer := state.2.foldl
    (fun buffer entry => buffer ++ (entry.2.get_dot_format entry.1 ++ " \n")) state.1
  buffer ++ "\n\x7d\n"

/-- The local variable `nodes` of `dump` after the call of `dump_transitions`. -/
def dump_nodes (transitions : List transition) (src dst : type_t) (last_event : String) :
    List (String × node) :=
  (dump_transitions transitions src dst last_event "digraph \x7b\n\n" []).2

/-- A call of a member of `interface_impl`, whose definitions are outside the header. -/
inductive impl_call where
  | on_state_change (source_state destination_state event : String)
  | dot_format (state_machine : String)
  deriving DecidableEq, Repr

/-- A call of a member of the base class `logger::sml_logger`, whose definitions are
outside the header. -/
inductive logger_call where
  | log_process_event (event : event_t)
  | log_guard (guard : guard_t) (event : event_t) (result : Bool)
  | log_action (action : type_t) (event : event_t)
  | log_state_change (src dst : type_t)

/-- The class `interface`: the calls its base class `logger` has received, the member
`last_event_`, and the calls its member `impl_` has received, oldest first. -/
structure interface where
  logger : List logger_call
  last_event_ : String
  impl_ : List impl_call

/-- The constructor of `interface`: `last_event_{}` is empty, and neither the base class nor
`impl_` has received a call. -/
def interface.init : interface := ⟨[], "", []⟩

/-- The member `interface::log_process_event`. -/
def interface.log_process_event (self : interface) (event : event_t) : interface :=
  let self := { self with last_event_ := extract_event_type event }
  { self with logger := self.logger ++ [logger_call.log_process_event event] }

/-- The member `interface::log_guard`. -/
def interface.log_guard (self : interface) (guard : guard_t) (event : event_t)
    (result : Bool) : interface :=
  { self with logger := self.logger ++ [logger_call.log_guard guard event result] }

/-- The member `interface::log_action`. -/
def interface.log_action (self : interface) (action : type_t) (event : event_t) : interface :=
  { self with logger := self.logger ++ [logger_call.log_action action event] }

/-- The member `interface::log_state_change`, with the transitions of
`boost::sml::sm<state_machine_t>` as an argument; `src` and `dst` are the types
`source_state_t::type` and `destination_state_t::type`. -/
def interface.log_state_change (self : interface) (transitions : List transition)
    (src dst : type_t) : interface :=
  let self := { self with impl_ := self.impl_ ++
    [impl_call.on_state_change (get_name src) (get_name dst) self.last_event_] }
  let self := { self with impl_ := self.impl_ ++
    [impl_call.dot_format (dump transitions src dst self.last_event_)] }
  { self with logger := self.logger ++ [logger_call.log_state_change src dst] }

/-- One call of a logging member of `interface`, as the state machine makes them. -/
inductive call where
  | log_process_event (event : event_t)
  | log_guard (guard : guard_t) (event : event_t) (result : Bool)
  | log_action (action : type_t) (event : event_t)
  | log_state_change (src dst : type_t)

/-- The interface after one call. -/
def interface.step (transitions : List transition) (self : interface) : call → interface
  | call.log_process_event event => self.log_process_event event
  | call.log_guard guard event result => self.log_guard guard event result
  | call.log_action action event => self.log_action action event
  | call.log_state_change src dst => self.log_state_change transitions src dst

/-- The interface after a sequence of calls, first to last. -/
def interface.run (transitions : List transition) (self : interface) (calls : List call) :
    interface :=
  calls.foldl (interface.step transitions) self

/-- The event of the most recent call of `log_process_event` among the calls, if there is
one. -/
def most_recent_event (calls : List call) : Option event_t :=
  calls.reverse.findSome? fun c =>
    match c with
    | call.log_process_event event => some event
    | _ => none

/-- The state `"not_running"_s` of the example `control_modes` in the header. -/
def not_running : type_t := type_t.class_ "not_running" none "not_running"

/-- The state `"running"_s` of the example `control_modes` in the header. -/
def running : type_t := type_t.class_ "running" none "running"

/-- The event `run` of the example in the header, with its member `name`. -/
def run : type_t := type_t.class_ "run" (some "run") "run"

/-- The event `stop` of the example in the header, with its member `name`. -/
def stop : type_t := type_t.class_ "stop" (some "stop") "stop"

/-- The transition table of the example `control_modes` in the header: from the initial
state `not_running` on `run` to `running`, and from `running` on `stop` to `not_running`. -/
def control_modes : List transition :=
  [⟨not_running, running, transition_event.event run, none, none, true⟩,
   ⟨running, not_running, transition_event.event stop, none, none, false⟩]

end sml

/-! ## Theorems -/

namespace beckhoff

theorem bitset.set_of_lt {size : Nat} (b : bitset size) {pos : Nat} (value : Bool)
    (h : pos < size) :
    b.set pos value =
      Except.ok ⟨b.bits.set pos value, by rw [List.length_set]; exact b.size_eq⟩ := by
  simp [bitset.set, h]

theorem bitset.set_of_ge {size : Nat} (b : bitset size) {pos : Nat} (value : Bool)
    (h : size ≤ pos) : b.set pos value = Except.error Exception.out_of_range := by
  simp [bitset.set, Nat.not_lt.mpr h]

theorem bitset.ext_bits {size : Nat} {a b : bitset size} (h : a.bits = b.bits) : a = b := by
  cases a; cases b; cases h; rfl

theorem el2xxx.set_output_of_lt {cfg : terminal} (dev : el2xxx cfg) {position : Nat}
    (value : Bool) (h : position < cfg.size) :
    dev.set_output position value =
      (Except.ok (), { dev with output_states_ :=
        ⟨dev.output_states_.bits.set position value,
          by rw [List.length_set]; exact dev.output_states_.size_eq⟩ }) := by
  simp [el2xxx.set_output, bitset.set_of_lt _ _ h]

theorem el2xxx.set_output_of_ge {cfg : terminal} (dev : el2xxx cfg) {position : Nat}
    (value : Bool) (h : cfg.size ≤ position) :
    dev.set_output position value = (Except.error Exception.out_of_range, dev) := by
  simp [el2xxx.set_output, bitset.set_of_ge _ _ h]

theorem getD_set_self (l : List Bool) (i : Nat) (v : Bool) (h : i < l.length) :
    (l.set i v).getD i false = v := by
  simp [List.getD_eq_getElem?_getD, List.getElem?_set, h]

theorem getD_set_other (l : List Bool) (i j : Nat) (v : Bool) (h : j ≠ i) :
    (l.set i v).getD j false = l.getD j false := by
  simp [List.getD_eq_getElem?_getD, List.getElem?_set, Ne.symm h]

theorem el2xxx.set_output_ok {cfg : terminal} (dev : el2xxx cfg) {position : Nat}
    (value : Bool) (h : position < cfg.size) :
    (dev.set_output position value).1 = Except.ok () := by
  rw [el2xxx.set_output_of_lt dev value h]

theorem el2xxx.set_output_test_self {cfg : terminal} (dev : el2xxx cfg) {position : Nat}
    (value : Bool) (h : position < cfg.size) :
    (dev.set_output position value).2.output_states_.test position = value := by
  rw [el2xxx.set_output_of_lt dev value h]
  exact getD_set_self _ _ _ (by rw [dev.output_states_.size_eq]; exact h)

theorem el2xxx.set_output_test_other {cfg : terminal} (dev : el2xxx cfg) {position j : Nat}
    (value : Bool) (h : j ≠ position) :
    (dev.set_output position value).2.output_states_.test j = dev.output_states_.test j := by
  by_cases hp : position < cfg.size
  · rw [el2xxx.set_output_of_lt dev value hp]
    exact getD_set_other _ _ _ _ h
  · rw [el2xxx.set_output_of_ge dev value (Nat.le_of_not_lt hp)]

theorem bitset.init_test (size pos : Nat) : (bitset.init size).test pos = false := by
  simp only [bitset.init, bitset.test, List.getD_eq_getElem?_getD, List.getElem?_replicate]
  split <;> rfl

theorem testBit_pack_bits (l : List Bool) (k : Nat) :
    (pack_bits l).testBit k = l.getD k false := by
  induction l generalizing k with
  | nil => simp [pack_bits]
  | cons b bs ih =>
    cases k with
    | zero =>
      cases b <;> simp [pack_bits, Nat.testBit_zero, Nat.add_mod]
    | succ k =>
      have hdiv : (2 * pack_bits bs + (if b then 1 else 0)) / 2 = pack_bits bs := by
        split <;> omega
      rw [pack_bits, Nat.testBit_succ, hdiv, ih]
      simp

theorem pack_bits_lt (l : List Bool) : pack_bits l < 2 ^ l.length := by
  induction l with
  | nil => simp [pack_bits]
  | cons b bs ih =>
    have : pack_bits (b :: bs) ≤ 2 * pack_bits bs + 1 := by
      cases b <;> simp [pack_bits]
    rw [List.length_cons, pow_succ]
    omega

theorem wire_bit_iff (cfg : terminal) (wire : Nat → Nat) (states : bitset cfg.size) (p : Nat) :
    wire_bit cfg wire states p = true ↔
      ∃ j, j < cfg.size ∧ wire (cfg.entries.getD j 0) = p ∧ states.test j = true := by
  simp [wire_bit, List.any_eq_true]

theorem wire_bit_entry (cfg : terminal) (wire : Nat → Nat) (states : bitset cfg.size)
    (hw : wiring cfg wire) (i : Nat) (hi : i < cfg.size) :
    wire_bit cfg wire states (wire (cfg.entries.getD i 0)) = states.test i := by
  rw [Bool.eq_iff_iff, wire_bit_iff]
  constructor
  · rintro ⟨j, hj, hji, hs⟩
    rw [← hw.1 j hj i hi hji]
    exact hs
  · intro hs
    exact ⟨i, hi, rfl, hs⟩

theorem encode_test (cfg : terminal) (wire : Nat → Nat) (states : bitset cfg.size) (p : Nat) :
    (encode cfg wire states).test p =
      (decide (p < 8 * output_pdo_size cfg.size) && wire_bit cfg wire states p) := by
  by_cases h : p / 8 < output_pdo_size cfg.size
  · have hp : p < 8 * output_pdo_size cfg.size := by omega
    have hm : p % 8 < 8 := Nat.mod_lt _ (by decide)
    have hsum : 8 * (p / 8) + p % 8 = p := Nat.div_add_mod p 8
    simp [output_pdo.test, encode, List.getD_eq_getElem?_getD, List.getElem?_map,
      List.getElem?_range h, List.getElem?_range hm, testBit_pack_bits, hsum, hp]
  · have hp : ¬ p < 8 * output_pdo_size cfg.size := by omega
    have hnone : (List.range (output_pdo_size cfg.size))[p / 8]? = none := by
      rw [List.getElem?_eq_none_iff, List.length_range]
      omega
    simp [output_pdo.test, encode, List.getD_eq_getElem?_getD, List.getElem?_map, hnone, hp]

theorem encode_byte_lt (cfg : terminal) (wire : Nat → Nat) (states : bitset cfg.size) :
    ∀ byte ∈ (encode cfg wire states).data, byte < 256 := by
  intro byte hb
  simp only [encode, List.mem_map] at hb
  obtain ⟨b, _, rfl⟩ := hb
  have h := pack_bits_lt ((List.range 8).map fun k => wire_bit cfg wire states (8 * b + k))
  simpa using h

theorem decode_encode (cfg : terminal) (wire : Nat → Nat) (states : bitset cfg.size)
    (hw : wiring cfg wire) : decode cfg wire (encode cfg wire states) = states := by
  apply bitset.ext_bits
  apply List.ext_getElem
  · simp [decode, states.size_eq]
  · intro i h1 h2
    have hi : i < cfg.size := by rw [← states.size_eq]; exact h2
    have hr := hw.2 i hi
    simp only [decode, List.getElem_map, List.getElem_range]
    rw [encode_test, wire_bit_entry cfg wire states hw i hi, decide_eq_true hr,
      Bool.true_and]
    simp [bitset.test, List.getD_eq_getElem?_getD, List.getElem?_eq_getElem h2]

/-- C1: for a terminal with a wiring table, a channel `i` below the channel count and a
value `v`: `set_output(i, v)` succeeds, and the frame that the next `pdo_cycle` produces
has `size / 9 + 1` bytes, each below 256, holds `v` at the wire position of `entries[i]`,
decodes to the whole output state vector, and has a bit set exactly at the wire positions
of the channels that are on; on a fresh device with `v` true that is the bit at the wire
position of `entries[i]` and no other. -/
theorem set_output_then_pdo_cycle (cfg : terminal) (wire : Nat → Nat) (dev : el2xxx cfg)
    (i : Nat) (v : Bool) (input : List Nat) (output : output_pdo cfg.size)
    (hw : wiring cfg wire) (hi : i < cfg.size) :
    (dev.set_output i v).1 = Except.ok () ∧
    ((dev.set_output i v).2.pdo_cycle wire input output).2.data.length = cfg.size / 9 + 1 ∧
    (∀ byte ∈ ((dev.set_output i v).2.pdo_cycle wire input output).2.data, byte < 256) ∧
    ((dev.set_output i v).2.pdo_cycle wire input output).2.test
      (wire (cfg.entries.getD i 0)) = v ∧
    decode cfg wire ((dev.set_output i v).2.pdo_cycle wire input output).2 =
      (dev.set_output i v).2.output_states_ ∧
    (∀ p, ((dev.set_output i v).2.pdo_cycle wire input output).2.test p = true ↔
      ∃ j, j < cfg.size ∧ wire (cfg.entries.getD j 0) = p ∧
        (dev.set_output i v).2.output_states_.test j = true) ∧
    (dev.output_states_ = bitset.init cfg.size → v = true →
      ∀ p, ((dev.set_output i v).2.pdo_cycle wire input output).2.test p =
        decide (p = wire (cfg.entries.getD i 0))) := by
  have hframe : ((dev.set_output i v).2.pdo_cycle wire input output).2 =
      encode cfg wire (dev.set_output i v).2.output_states_ := rfl
  rw [hframe]
  have hbits : ∀ p, (encode cfg wire (dev.set_output i v).2.output_states_).test p = true ↔
      ∃ j, j < cfg.size ∧ wire (cfg.entries.getD j 0) = p ∧
        (dev.set_output i v).2.output_states_.test j = true := by
    intro p
    rw [encode_test, Bool.and_eq_true, wire_bit_iff, decide_eq_true_eq]
    constructor
    · exact fun h => h.2
    · rintro ⟨j, hj, hp, hs⟩
      exact ⟨hp ▸ hw.2 j hj, j, hj, hp, hs⟩
  refine ⟨el2xxx.set_output_ok dev v hi, (encode cfg wire _).size_eq,
    encode_byte_lt cfg wire _, ?_, decode_encode cfg wire _ hw, hbits, ?_⟩
  · rw [encode_test, wire_bit_entry cfg wire _ hw i hi, decide_eq_true (hw.2 i hi),
      Bool.true_and]
    exact el2xxx.set_output_test_self dev v hi
  · intro hfresh hv p
    rw [Bool.eq_iff_iff, hbits p, decide_eq_true_eq]
    constructor
    · rintro ⟨j, hj, hp, hs⟩
      by_cases hji : j = i
      · rw [← hp, hji]
      · rw [el2xxx.set_output_test_other dev v hji, hfresh, bitset.init_test] at hs
        exact absurd hs (by decide)
    · intro hp
      exact ⟨i, hi, hp.symm, hv ▸ el2xxx.set_output_test_self dev v hi⟩

/-- An instance of `set_output_then_pdo_cycle`: on a fresh EL2008 with pin label `e` wired
to bit `e - 1`, a table that is a wiring of every terminal of the family,
`set_output(2, true)` and `pdo_cycle` give the one byte frame 2, in which the bit of pin 2
is set and no other. -/
theorem set_output_then_pdo_cycle_witness :
    (∀ cfg ∈ family, wiring cfg (fun e => e - 1)) ∧
    (((el2xxx.construct el2008 3).set_output 2 true).2.pdo_cycle (fun e => e - 1) []
        ⟨[0], rfl⟩).2.test ((fun e => e - 1) (el2008.entries.getD 2 0)) = true ∧
    (((el2xxx.construct el2008 3).set_output 2 true).2.pdo_cycle (fun e => e - 1) []
        ⟨[0], rfl⟩).2.data = [2] :=
  ⟨by decide,
   (set_output_then_pdo_cycle el2008 (fun e => e - 1) (el2xxx.construct el2008 3) 2 true []
      ⟨[0], rfl⟩ (by decide) (by decide)).2.2.2.1,
   by decide⟩

/-- C2: for a channel count of 4, 8 or 16 the output frame type has `size / 9 + 1` bytes,
which is 1 byte for 4 and for 8 channels and 2 bytes for 16, and the output state vector
of a device has exactly `size` bits. -/
theorem output_pdo_extent (cfg : terminal) (h : valid_size cfg.size) (dev : el2xxx cfg)
    (frame : output_pdo cfg.size) :
    frame.data.length = cfg.size / 9 + 1 ∧
    frame.data.length = (if cfg.size = 16 then 2 else 1) ∧
    output_pdo_size 4 = 1 ∧ output_pdo_size 8 = 1 ∧ output_pdo_size 16 = 2 ∧
    dev.output_states_.bits.length = cfg.size := by
  refine ⟨frame.size_eq, ?_, rfl, rfl, rfl, dev.output_states_.size_eq⟩
  rw [frame.size_eq]
  rcases h with h | h | h <;> rw [h] <;> rfl

/-- An instance of `output_pdo_extent`: the 16 channel EL2809, a fresh device and a frame
of two zero bytes. -/
theorem output_pdo_extent_witness :
    valid_size el2809.size ∧
    (⟨[0, 0], rfl⟩ : output_pdo el2809.size).data.length = 2 ∧
    (el2xxx.construct el2809 3).output_states_.bits.length = 16 :=
  ⟨by decide,
   (output_pdo_extent el2809 (by decide) (el2xxx.construct el2809 3) ⟨[0, 0], rfl⟩).2.1,
   (output_pdo_extent el2809 (by decide) (el2xxx.construct el2809 3) ⟨[0, 0], rfl⟩).2.2.2.2.2⟩

/-- C3: for every position that is not below the channel count, and so for the channel
count itself with the value true, `set_output` fails with `out_of_range` and the device,
its output state vector included, is as before. This holds for every channel count, the
allowed 4, 8 and 16 among them. -/
theorem set_output_out_of_range (cfg : terminal) (dev : el2xxx cfg) (position : Nat)
    (value : Bool) (h : cfg.size ≤ position) :
    (dev.set_output position value).1 = Except.error Exception.out_of_range ∧
    (dev.set_output position value).2 = dev ∧
    (dev.set_output position value).2.output_states_ = dev.output_states_ ∧
    dev.set_output cfg.size true = (Except.error Exception.out_of_range, dev) := by
  rw [el2xxx.set_output_of_ge dev value h, el2xxx.set_output_of_ge dev true (Nat.le_refl _)]
  exact ⟨rfl, rfl, rfl, rfl⟩

/-- An instance of `set_output_out_of_range`: position 8 on the 8 channel EL2008. -/
theorem set_output_out_of_range_witness :
    valid_size el2008.size ∧
    ((el2xxx.construct el2008 3).set_output 8 true).1 = Except.error Exception.out_of_range ∧
    ((el2xxx.construct el2008 3).set_output 8 true).2 = el2xxx.construct el2008 3 :=
  ⟨by decide,
   (set_output_out_of_range el2008 (el2xxx.construct el2008 3) 8 true (by decide)).1,
   (set_output_out_of_range el2008 (el2xxx.construct el2008 3) 8 true (by decide)).2.1⟩

/-- C4: for a position below the channel count `set_output` succeeds, the bit at the
position then has the value written, every other bit is as before, and so are the other
members of the device. -/
theorem set_output_in_range (cfg : terminal) (dev : el2xxx cfg) (position : Nat)
    (value : Bool) (h : position < cfg.size) :
    (dev.set_output position value).1 = Except.ok () ∧
    (dev.set_output position value).2.output_states_.test position = value ∧
    (∀ j, j ≠ position →
      (dev.set_output position value).2.output_states_.test j = dev.output_states_.test j) ∧
    (dev.set_output position value).2.bool_receivers_ = dev.bool_receivers_ ∧
    (dev.set_output position value).2.slave_index = dev.slave_index := by
  refine ⟨el2xxx.set_output_ok dev value h, el2xxx.set_output_test_self dev value h,
    fun j hj => el2xxx.set_output_test_other dev value hj, ?_, ?_⟩ <;>
  rw [el2xxx.set_output_of_lt dev value h]

/-- An instance of `set_output_in_range`: channel 2 of a fresh EL2008 set to true. -/
theorem set_output_in_range_witness :
    ((el2xxx.construct el2008 3).set_output 2 true).1 = Except.ok () ∧
    ((el2xxx.construct el2008 3).set_output 2 true).2.output_states_.test 2 = true :=
  ⟨(set_output_in_range el2008 (el2xxx.construct el2008 3) 2 true (by decide)).1,
   (set_output_in_range el2008 (el2xxx.construct el2008 3) 2 true (by decide)).2.1⟩

/-- C5: writing `a` and then `b` to a channel below the channel count gives the same
outcome and the same device as writing `b` alone, and after true, false, true the bit of
the channel is true. -/
theorem set_output_last_write_wins (cfg : terminal) (dev : el2xxx cfg) (i : Nat) (a b : Bool)
    (h : i < cfg.size) :
    (dev.set_output i a).2.set_output i b = dev.set_output i b ∧
    ((((dev.set_output i true).2.set_output i false).2.set_output i true).2
      ).output_states_.test i = true := by
  constructor
  · rw [el2xxx.set_output_of_lt dev a h, el2xxx.set_output_of_lt _ b h,
      el2xxx.set_output_of_lt dev b h]
    simp [List.set_set]
  · rw [el2xxx.set_output_of_lt dev true h, el2xxx.set_output_of_lt _ false h,
      el2xxx.set_output_of_lt _ true h]
    exact getD_set_self _ _ _ (by
      simp only [List.length_set]; rw [dev.output_states_.size_eq]; exact h)

/-- An instance of `set_output_last_write_wins`: channel 1 of a fresh EL2004. -/
theorem set_output_last_write_wins_witness :
    ((el2xxx.construct el2004 0).set_output 1 true).2.set_output 1 false =
      (el2xxx.construct el2004 0).set_output 1 false :=
  (set_output_last_write_wins el2004 (el2xxx.construct el2004 0) 1 true false (by decide)).1

/-- C8: each of EL2794, EL2004, EL2008 and EL2809 has a channel count of 4, 8 or 16 and an
entries table of exactly that many elements; the EL2008 has 8 channels and the entries
1, 5, 2, 6, 3, 7, 4, 8, so that `entries[2]` is 2. -/
theorem family_well_formed :
    (∀ cfg ∈ family, valid_size cfg.size ∧ cfg.entries.length = cfg.size) ∧
    family.map terminal.name_v = ["EL2794", "EL2004", "EL2008", "EL2809"] ∧
    el2008.size = 8 ∧ el2008.entries = [1, 5, 2, 6, 3, 7, 4, 8] ∧
    el2008.entries.getD 2 0 = 2 := by
  decide

/-- C6: two calls of `pdo_cycle` in a row, whatever the input bytes and whatever the frame
buffer held before, fill the frame with the same bytes; a call leaves the device as it was,
and devices with the same output state vector produce the same frame. -/
theorem pdo_cycle_idempotent (cfg : terminal) (wire : Nat → Nat) (dev : el2xxx cfg)
    (input1 input2 : List Nat) (output : output_pdo cfg.size) :
    ((dev.pdo_cycle wire input1 output).1.pdo_cycle wire input2
        (dev.pdo_cycle wire input1 output).2).2 = (dev.pdo_cycle wire input1 output).2 ∧
    (dev.pdo_cycle wire input1 output).1 = dev ∧
    ∀ (other : el2xxx cfg) (input3 : List Nat) (output3 : output_pdo cfg.size),
      other.output_states_ = dev.output_states_ →
      (other.pdo_cycle wire input3 output3).2 = (dev.pdo_cycle wire input1 output).2 := by
  refine ⟨rfl, rfl, ?_⟩
  intro other input3 output3 h
  simp only [el2xxx.pdo_cycle, h]

/-- C7: a freshly constructed device has an output state vector of `size` bits that are
all false. -/
theorem construct_all_clear (cfg : terminal) (slave_index : Nat) :
    (el2xxx.construct cfg slave_index).output_states_.bits = List.replicate cfg.size false ∧
    (el2xxx.construct cfg slave_index).output_states_.bits.length = cfg.size ∧
    ∀ i, (el2xxx.construct cfg slave_index).output_states_.test i = false := by
  exact ⟨rfl, (el2xxx.construct cfg slave_index).output_states_.size_eq,
    fun i => bitset.init_test cfg.size i⟩

/-- C9: for a channel count of 4, 8 or 16 a constructed device has exactly that many
bindings, and binding `i` is the one registered under the device name, a dot and
`entries[i]`, bound to channel `i`. -/
theorem construct_bindings (cfg : terminal) (slave_index : Nat) (h : valid_size cfg.size) :
    (el2xxx.construct cfg slave_index).bool_receivers_.length = cfg.size ∧
    ((el2xxx.construct cfg slave_index).bool_receivers_.length = 4 ∨
      (el2xxx.construct cfg slave_index).bool_receivers_.length = 8 ∨
      (el2xxx.construct cfg slave_index).bool_receivers_.length = 16) ∧
    ∀ i, i < cfg.size →
      (el2xxx.construct cfg slave_index).bool_receivers_[i]? =
        some ⟨cfg.name_v ++ "." ++ toString (cfg.entries.getD i 0), i⟩ := by
  have hlen : (el2xxx.construct cfg slave_index).bool_receivers_.length = cfg.size := by
    simp [el2xxx.construct]
  refine ⟨hlen, ?_, ?_⟩
  · rw [hlen]; exact h
  · intro i hi
    simp [el2xxx.construct, channel_name, List.getElem?_map, List.getElem?_range hi]

/-- An instance of `construct_bindings`: the bindings of an EL2008 at slave index 3. -/
theorem construct_bindings_witness :
    valid_size el2008.size ∧
    (el2xxx.construct el2008 3).bool_receivers_.length = 8 ∧
    (el2xxx.construct el2008 3).bool_receivers_[2]? = some ⟨"EL2008.2", 2⟩ ∧
    (el2xxx.construct el2008 3).bool_receivers_.map slot.name =
      ["EL2008.1", "EL2008.5", "EL2008.2", "EL2008.6", "EL2008.3", "EL2008.7", "EL2008.4",
       "EL2008.8"] :=
  ⟨by decide,
   (construct_bindings el2008 3 (by decide)).1,
   (construct_bindings el2008 3 (by decide)).2.2 2 (by decide),
   by decide⟩

/-- C12: the four terminal types have the one vendor id 0x2 and the product codes
0xaea3052, 0x7d43052, 0x7d83052 and 0xaf93052, which are pairwise distinct, so two types
of the family with the same key of vendor id and product code are the same type, with the
same name, channel count and entries. -/
theorem product_codes_identify :
    vendor_id = 0x2 ∧
    family.map terminal.name_v = ["EL2794", "EL2004", "EL2008", "EL2809"] ∧
    family.map terminal.pc = [0xaea3052, 0x7d43052, 0x7d83052, 0xaf93052] ∧
    (family.map terminal.pc).Nodup ∧
    (∀ a ∈ family, ∀ b ∈ family, (vendor_id, a.pc) = (vendor_id, b.pc) →
      a = b ∧ a.name_v = b.name_v ∧ a.size = b.size ∧ a.entries = b.entries) := by
  decide

/-- C15: in each of the four terminal types the entries are pairwise distinct and lie
between 1 and 16, and the channel identifiers of one device, the device name, a dot and
`entries[i]`, are pairwise distinct. -/
theorem entries_distinct :
    family = [el2794, el2004, el2008, el2809] ∧
    (∀ cfg ∈ family, cfg.entries.Nodup) ∧
    (∀ cfg ∈ family, ∀ e ∈ cfg.entries, 1 ≤ e ∧ e ≤ 16) ∧
    (∀ cfg ∈ family, ∀ i, i < cfg.size → ∀ j, j < cfg.size →
      cfg.entries.getD i 0 = cfg.entries.getD j 0 → i = j) ∧
    (∀ cfg ∈ family, ((List.range cfg.size).map (channel_name cfg)).Nodup) := by
  decide

/-- C16: for a channel count `n` of 4, 8 or 16 the frame byte count `n / 9 + 1` is the
ceiling of `n / 8`: eight times the byte count is at least `n`, and with one byte less the
frame would have fewer than `n` bits. -/
theorem output_pdo_size_ceil (n : Nat) (h : valid_size n) :
    output_pdo_size n = (n + 7) / 8 ∧
    8 * output_pdo_size n ≥ n ∧
    8 * (output_pdo_size n - 1) < n := by
  rcases h with h | h | h <;> subst h <;> decide

/-- An instance of `output_pdo_size_ceil`: 16 channels take 2 bytes. -/
theorem output_pdo_size_ceil_witness :
    valid_size 16 ∧ output_pdo_size 16 = (16 + 7) / 8 ∧ 8 * output_pdo_size 16 ≥ 16 ∧
    8 * (output_pdo_size 16 - 1) < 16 :=
  ⟨by decide, output_pdo_size_ceil 16 (by decide)⟩

/-- C17: the product code of each of the four terminal types is `m * 2 ^ 16 + 0x3052`,
where `m` is the number written in decimal after "EL" in the name, 2794, 2004, 2008 and
2809: the upper 16 bits are the model number and the lower 16 bits are 0x3052. -/
theorem product_code_model_number :
    family.map (fun cfg => cfg.pc / 2 ^ 16) = [2794, 2004, 2008, 2809] ∧
    (∀ cfg ∈ family, cfg.name_v = "EL" ++ toString (cfg.pc / 2 ^ 16)) ∧
    (∀ cfg ∈ family, cfg.pc % 2 ^ 16 = 0x3052) ∧
    (∀ cfg ∈ family, cfg.pc = cfg.pc / 2 ^ 16 * 2 ^ 16 + 0x3052) ∧
    (∀ cfg ∈ family, cfg.pc < 2 ^ 32) := by
  decide

end beckhoff

namespace atv320

/-- C10: `sizeof(input_t)` is 12 and `sizeof(output_t)` is 6, as the two static assertions
of the header demand; each is the sum of the sizes of the members, so there is no padding,
and every member is 16 bits wide. -/
theorem pdo_record_sizes :
    sizeof input_t = 12 ∧ sizeof output_t = 6 ∧
    sizeof input_t = packed_size input_t ∧ sizeof output_t = packed_size output_t ∧
    (∀ m ∈ input_t ++ output_t, 8 * m.size = 16) ∧
    input_t.map member.name =
      ["status_word", "frequency", "current", "digital_inputs", "analog_input",
       "drive_state"] ∧
    output_t.map member.name = ["control", "frequency", "digital_outputs"] := by
  decide

theorem encode_u16_length (order : byte_order) (v : Nat) : (encode_u16 order v).length = 2 := by
  cases order <;> rfl

theorem encode_u16_lt (order : byte_order) (v : Nat) : ∀ b ∈ encode_u16 order v, b < 256 := by
  intro b hb
  cases order <;> simp only [encode_u16, List.mem_cons, List.mem_singleton, List.not_mem_nil,
    or_false] at hb <;> omega

theorem encode_decode_u16 (order : byte_order) (b0 b1 : Nat) (h0 : b0 < 256) (h1 : b1 < 256) :
    encode_u16 order (decode_u16 order b0 b1) = [b0, b1] := by
  cases order <;> simp only [encode_u16, decode_u16, List.cons.injEq, and_true] <;> omega

theorem decode_u16_lt (order : byte_order) (b0 b1 : Nat) (h0 : b0 < 256) (h1 : b1 < 256) :
    is_uint16 (decode_u16 order b0 b1) := by
  cases order <;> simp only [decode_u16, is_uint16] <;> omega

theorem to_unsigned_to_signed (u : Nat) (h : u < 65536) : to_unsigned (to_signed u) = u := by
  unfold to_unsigned to_signed
  split <;> omega

theorem to_signed_to_unsigned (v : Int) (h : is_int16 v) : to_signed (to_unsigned v) = v := by
  obtain ⟨h1, h2⟩ := h
  unfold to_unsigned to_signed
  split <;> omega

theorem to_signed_range (u : Nat) : is_int16 (to_signed u) := by
  unfold to_signed is_int16
  split <;> omega

theorem encode_decode_i16 (order : byte_order) (b0 b1 : Nat) (h0 : b0 < 256) (h1 : b1 < 256) :
    encode_i16 order (decode_i16 order b0 b1) = [b0, b1] := by
  unfold encode_i16 decode_i16
  rw [to_unsigned_to_signed _ (decode_u16_lt order b0 b1 h0 h1)]
  exact encode_decode_u16 order b0 b1 h0 h1

theorem decode_encode_u16 (order : byte_order) (v : Nat) (h : is_uint16 v) :
    ∃ b0 b1, encode_u16 order v = [b0, b1] ∧ decode_u16 order b0 b1 = v := by
  unfold is_uint16 at h
  cases order
  · exact ⟨v % 256, v / 256 % 256, rfl, by simp only [decode_u16]; omega⟩
  · exact ⟨v / 256 % 256, v % 256, rfl, by simp only [decode_u16]; omega⟩

theorem decode_encode_i16 (order : byte_order) (v : Int) (h : is_int16 v) :
    ∃ b0 b1, encode_i16 order v = [b0, b1] ∧ decode_i16 order b0 b1 = v := by
  have hu : is_uint16 (to_unsigned v) := by
    unfold is_uint16 to_unsigned; omega
  obtain ⟨b0, b1, he, hd⟩ := decode_encode_u16 order (to_unsigned v) hu
  exact ⟨b0, b1, he, by unfold decode_i16; rw [hd, to_signed_to_unsigned v h]⟩

theorem decode_encode_input (order : byte_order) (r : input_value) (h : r.valid) :
    decode_input order (encode_input order r) = some r := by
  obtain ⟨h1, h2, h3, h4, h5, h6⟩ := h
  obtain ⟨a0, a1, ea, da⟩ := decode_encode_u16 order r.status_word h1
  obtain ⟨b0, b1, eb, db⟩ := decode_encode_i16 order r.frequency h2
  obtain ⟨c0, c1, ec, dc⟩ := decode_encode_u16 order r.current h3
  obtain ⟨d0, d1, ed, dd⟩ := decode_encode_u16 order r.digital_inputs h4
  obtain ⟨e0, e1, ee, de⟩ := decode_encode_i16 order r.analog_input h5
  obtain ⟨f0, f1, ef, df⟩ := decode_encode_u16 order r.drive_state h6
  simp only [encode_input, ea, eb, ec, ed, ee, ef, List.cons_append, List.nil_append,
    decode_input, da, db, dc, dd, de, df]

theorem encode_decode_input (order : byte_order) (bytes : List Nat) (hlen : bytes.length = 12)
    (hb : ∀ b ∈ bytes, b < 256) :
    ∃ d, decode_input order bytes = some d ∧ d.valid ∧ encode_input order d = bytes := by
  match bytes, hlen, hb with
  | [b0, b1, b2, b3, b4, b5, b6, b7, b8, b9, b10, b11], _, hb =>
    simp only [List.mem_cons, List.mem_singleton, List.not_mem_nil, or_false,
      forall_eq_or_imp, forall_eq] at hb
    obtain ⟨h0, h1, h2, h3, h4, h5, h6, h7, h8, h9, h10, h11⟩ := hb
    refine ⟨_, rfl, ⟨decode_u16_lt _ _ _ h0 h1, to_signed_range _, decode_u16_lt _ _ _ h4 h5,
      decode_u16_lt _ _ _ h6 h7, to_signed_range _, decode_u16_lt _ _ _ h10 h11⟩, ?_⟩
    simp only [encode_input, encode_decode_u16 order _ _ h0 h1,
      encode_decode_i16 order _ _ h2 h3, encode_decode_u16 order _ _ h4 h5,
      encode_decode_u16 order _ _ h6 h7, encode_decode_i16 order _ _ h8 h9,
      encode_decode_u16 order _ _ h10 h11, List.cons_append, List.nil_append]

theorem decode_encode_output (order : byte_order) (r : output_value) (h : r.valid) :
    decode_output order (encode_output order r) = some r := by
  obtain ⟨h1, h2, h3⟩ := h
  obtain ⟨a0, a1, ea, da⟩ := decode_encode_u16 order r.control h1
  obtain ⟨b0, b1, eb, db⟩ := decode_encode_i16 order r.frequency h2
  obtain ⟨c0, c1, ec, dc⟩ := decode_encode_u16 order r.digital_outputs h3
  simp only [encode_output, ea, eb, ec, List.cons_append, List.nil_append, decode_output,
    da, db, dc]

/-- C11: in either byte order, the bytes of an output record are exactly 6, the value of
`sizeof(output_t)`, whatever the values of its members; 12 bytes decode to an input record
of 16 bit members that encodes to the same 12 bytes; and a record of 16 bit members, the
signed frequency and analog input among them, is decoded from its own bytes with every
member the same integer. -/
theorem pdo_round_trip (order : byte_order) (out : output_value) (r : input_value)
    (bytes : List Nat) (hlen : bytes.length = 12) (hb : ∀ b ∈ bytes, b < 256)
    (hr : r.valid) :
    (encode_output order out).length = 6 ∧
    (encode_output order out).length = sizeof output_t ∧
    (∀ b ∈ encode_output order out, b < 256) ∧
    (∃ d, decode_input order bytes = some d ∧ d.valid ∧ encode_input order d = bytes) ∧
    (encode_input order r).length = 12 ∧
    (encode_input order r).length = sizeof input_t ∧
    decode_input order (encode_input order r) = some r ∧
    (out.valid → decode_output order (encode_output order out) = some out) := by
  have hout : (encode_output order out).length = 6 := by
    simp only [encode_output, encode_i16, List.length_append, encode_u16_length]
  have hin : (encode_input order r).length = 12 := by
    simp only [encode_input, encode_i16, List.length_append, encode_u16_length]
  refine ⟨hout, hout.trans (by decide), ?_, encode_decode_input order bytes hlen hb, hin,
    hin.trans (by decide), decode_encode_input order r hr, decode_encode_output order out⟩
  intro b hm
  simp only [encode_output, encode_i16, List.mem_append] at hm
  rcases hm with (hm | hm) | hm <;> exact encode_u16_lt order _ b hm

/-- An instance of `pdo_round_trip`: little endian bytes with a negative frequency and a
negative analog input. -/
theorem pdo_round_trip_witness :
    decode_input byte_order.little [0x37, 0x02, 0x0c, 0xfe, 5, 0, 3, 0, 0xff, 0xff, 1, 0] =
      some ⟨0x237, -500, 5, 3, -1, 1⟩ ∧
    encode_input byte_order.little ⟨0x237, -500, 5, 3, -1, 1⟩ =
      [0x37, 0x02, 0x0c, 0xfe, 5, 0, 3, 0, 0xff, 0xff, 1, 0] ∧
    (encode_output byte_order.little ⟨0xf, -500, 1⟩).length = 6 :=
  ⟨by decide,
   by decide,
   (pdo_round_trip byte_order.little ⟨0xf, -500, 1⟩ ⟨0x237, -500, 5, 3, -1, 1⟩
      [0x37, 0x02, 0x0c, 0xfe, 5, 0, 3, 0, 0xff, 0xff, 1, 0] (by decide) (by decide)
      (by decide)).1⟩

end atv320

namespace stx

theorem set_append_mid (pre post : List Nat) (m c : Nat) (ms : List Nat) :
    (pre ++ (m :: ms) ++ post).set pre.length c = (pre ++ [c]) ++ ms ++ post := by
  induction pre with
  | nil => simp
  | cons p ps _ => simp

theorem copy_append (src : List Nat) : ∀ (pre mid post : List Nat), mid.length = src.length →
    copy src (pre ++ mid ++ post) pre.length = (pre ++ src ++ post, pre.length + src.length) := by
  induction src with
  | nil =>
    intro pre mid post h
    have : mid = [] := List.length_eq_zero.mp h
    simp [copy, this]
  | cons c cs ih =>
    intro pre mid post h
    cases mid with
    | nil => simp at h
    | cons m ms =>
      have hl : ms.length = cs.length := by simpa using h
      have hp : pre.length + 1 = (pre ++ [c]).length := by simp
      rw [copy, set_append_mid, hp, ih (pre ++ [c]) ms post hl]
      simp only [List.append_assoc, List.singleton_append, List.length_append,
        List.length_cons, List.length_nil, Prod.mk.injEq, true_and]
      omega

theorem view_length {N : Nat} (l : basic_fixed_string N) : l.view.length = N := by
  unfold basic_fixed_string.view
  rw [List.length_take, l.size_eq]
  omega

theorem fs_view (str : List Nat) : (fs str).view = str := by
  simp [fs, basic_fixed_string.of_array, basic_fixed_string.view]

theorem concat_data {N M : Nat} (l : basic_fixed_string N) (r : basic_fixed_string M) :
    (concat_fixed_string l r).data_ = l.view ++ r.view ++ [0] := by
  have h1 : copy l.view (basic_fixed_string.init (N + M)).data_ 0 =
      (l.view ++ List.replicate (M + 1) 0, N) := by
    have hsplit : (basic_fixed_string.init (N + M)).data_ =
        ([] : List Nat) ++ List.replicate N 0 ++ List.replicate (M + 1) 0 := by
      simp only [basic_fixed_string.init, List.nil_append, ← List.replicate_add]
      rw [Nat.add_assoc]
    have := copy_append l.view [] (List.replicate N 0) (List.replicate (M + 1) 0)
      (by rw [List.length_replicate, view_length])
    rw [hsplit]
    simpa [view_length] using this
  have h2 : copy r.view (l.view ++ List.replicate (M + 1) 0) N =
      (l.view ++ r.view ++ [0], N + M) := by
    have := copy_append r.view l.view (List.replicate M 0) [0]
      (by rw [List.length_replicate, view_length])
    have hsplit : l.view ++ List.replicate (M + 1) 0 = l.view ++ List.replicate M 0 ++ [0] := by
      rw [List.append_assoc, List.replicate_succ']
    rw [hsplit]
    simpa [view_length] using this
  simp only [concat_fixed_string, h1, h2]
  have := set_append_mid (l.view ++ r.view) [] 0 0 []
  simp only [List.length_append, view_length, List.append_nil] at this
  exact this

theorem concat_view {N M : Nat} (l : basic_fixed_string N) (r : basic_fixed_string M) :
    (concat_fixed_string l r).view = l.view ++ r.view := by
  have hlen : (l.view ++ r.view).length = N + M := by
    rw [List.length_append, view_length, view_length]
  rw [basic_fixed_string.view, concat_data, ← hlen, List.take_left]

theorem concat_at_end {N M : Nat} (l : basic_fixed_string N) (r : basic_fixed_string M) :
    (concat_fixed_string l r).at (N + M) = 0 := by
  have hlen : (l.view ++ r.view).length = N + M := by
    rw [List.length_append, view_length, view_length]
  rw [basic_fixed_string.at, concat_data, ← hlen, List.getD_eq_getElem?_getD,
    List.getElem?_append_right (Nat.le_refl _)]
  simp

/-- C18: for fixed strings `l` of length `N` and `r` of length `M`, `concat_fixed_string`
and `operator+` give a fixed string of length `N + M` whose view is the `N` characters of
`l` followed by the `M` characters of `r` and whose element at index `N + M` is zero. -/
theorem concat_fixed_string_view {N M : Nat} (l : basic_fixed_string N)
    (r : basic_fixed_string M) :
    (concat_fixed_string l r).size = N + M ∧
    l.view.length = N ∧ r.view.length = M ∧
    (concat_fixed_string l r).view = l.view ++ r.view ∧
    (concat_fixed_string l r).view.length = N + M ∧
    (concat_fixed_string l r).at (N + M) = 0 ∧
    (concat_fixed_string l r).data_ = l.view ++ r.view ++ [0] ∧
    l.add r = concat_fixed_string l r :=
  ⟨rfl, view_length l, view_length r, concat_view l r, view_length _, concat_at_end l r,
    concat_data l r, rfl⟩

/-- C19: under `operator==` the three argument `concat_fixed_string(a, b, c)`, the
concatenation of `a` with `b` and then `c`, and that of `a` with the concatenation of `b`
and `c` are all equal; the empty fixed string on either side gives a string equal to the
other operand; and the concatenation of two literals has the array of the literal of the
joined characters. -/
theorem concat_fixed_string_assoc {N M K : Nat} (a : basic_fixed_string N)
    (b : basic_fixed_string M) (c : basic_fixed_string K) (e : basic_fixed_string 0)
    (s t : List Nat) :
    (concat_fixed_string3 a b c).eq (concat_fixed_string (concat_fixed_string a b) c) = true ∧
    (concat_fixed_string (concat_fixed_string a b) c).eq
      (concat_fixed_string a (concat_fixed_string b c)) = true ∧
    (concat_fixed_string3 a b c).eq (concat_fixed_string a (concat_fixed_string b c)) = true ∧
    (concat_fixed_string e a).eq a = true ∧
    (concat_fixed_string a e).eq a = true ∧
    (concat_fixed_string (fs s) (fs t)).data_ = (fs (s ++ t)).data_ := by
  have he : e.view = [] := by simp [basic_fixed_string.view]
  refine ⟨?_, ?_, ?_, ?_, ?_, ?_⟩
  · simp [basic_fixed_string.eq, concat_fixed_string3, concat_view, Nat.add_assoc]
  · simp [basic_fixed_string.eq, concat_view, Nat.add_assoc]
  · simp [basic_fixed_string.eq, concat_fixed_string3]
  · simp [basic_fixed_string.eq, concat_view, he]
  · simp [basic_fixed_string.eq, concat_view, he]
  · rw [concat_data, fs_view, fs_view]
    rfl

end stx

namespace sml

theorem contains_iff (s pattern : String) :
    contains s pattern = true ↔ pattern.data <:+: s.data := by
  simp only [contains, List.any_eq_true, List.mem_tails, List.isPrefixOf_iff_prefix]
  rw [List.infix_iff_prefix_suffix]
  constructor
  · rintro ⟨t, h1, h2⟩; exact ⟨t, h2, h1⟩
  · rintro ⟨t, h1, h2⟩; exact ⟨t, h2, h1⟩

theorem intercalate_go_append (sep : String) (l : List String) :
    ∀ a b : String, String.intercalate.go (a ++ b) sep l = a ++ String.intercalate.go b sep l := by
  induction l with
  | nil => intro a b; rfl
  | cons x xs ih =>
    intro a b
    simp only [String.intercalate.go]
    rw [String.append_assoc, String.append_assoc, ih, String.append_assoc]

theorem intercalate_cons_cons (sep a b : String) (rest : List String) :
    sep.intercalate (a :: b :: rest) = a ++ sep ++ sep.intercalate (b :: rest) := by
  simp only [String.intercalate, String.intercalate.go]
  rw [String.append_assoc, intercalate_go_append, intercalate_go_append, String.append_assoc]

theorem to_list_ne_nil (ts : guard_pack) : ∃ g gs, ts.to_list = g :: gs := by
  cases ts with
  | one t => exact ⟨t, [], rfl⟩
  | cons t ts => exact ⟨t, ts.to_list, rfl⟩

theorem and_guard_get_name : ∀ ts : guard_pack,
    and_guard.get_name ts = " && ".intercalate (ts.to_list.map get_guard_name)
  | guard_pack.one t => by
    simp [and_guard.get_name, guard_pack.to_list, String.intercalate, String.intercalate.go]
  | guard_pack.cons t ts => by
    obtain ⟨g, gs, h⟩ := to_list_ne_nil ts
    rw [and_guard.get_name, and_guard_get_name ts, guard_pack.to_list, h, List.map_cons,
      List.map_cons, List.map_cons, intercalate_cons_cons]

theorem or_guard_get_name : ∀ ts : guard_pack,
    or_guard.get_name ts = " || ".intercalate (ts.to_list.map get_guard_name)
  | guard_pack.one t => by
    simp [or_guard.get_name, guard_pack.to_list, String.intercalate, String.intercalate.go]
  | guard_pack.cons t ts => by
    obtain ⟨g, gs, h⟩ := to_list_ne_nil ts
    rw [or_guard.get_name, or_guard_get_name ts, guard_pack.to_list, h, List.map_cons,
      List.map_cons, List.map_cons, intercalate_cons_cons]


theorem mem_nodes_at (f : node → node) (key : String) :
    ∀ (nodes : List (String × node)) (e : String × node), e ∈ nodes_at nodes key f →
      e ∈ nodes ∨ ∃ n, (n = node.init ∨ (key, n) ∈ nodes) ∧ e = (key, f n) := by
  intro nodes
  induction nodes with
  | nil =>
    intro e he
    simp only [nodes_at, List.mem_singleton] at he
    exact Or.inr ⟨node.init, Or.inl rfl, he⟩
  | cons head rest ih =>
    obtain ⟨k, n⟩ := head
    intro e he
    simp only [nodes_at] at he
    split at he
    · rename_i hk
      rcases List.mem_cons.mp he with h | h
      · exact Or.inr ⟨n, Or.inr (by rw [hk]; exact List.mem_cons_self _ _), by rw [h, hk]⟩
      · exact Or.inl (List.mem_cons_of_mem _ h)
    · split at he
      · rcases List.mem_cons.mp he with h | h
        · exact Or.inr ⟨node.init, Or.inl rfl, h⟩
        · exact Or.inl h
      · rcases List.mem_cons.mp he with h | h
        · exact Or.inl (h ▸ List.mem_cons_self _ _)
        · rcases ih e h with h' | ⟨m, hm, hem⟩
          · exact Or.inl (List.mem_cons_of_mem _ h')
          · refine Or.inr ⟨m, ?_, hem⟩
            rcases hm with hm | hm
            · exact Or.inl hm
            · exact Or.inr (List.mem_cons_of_mem _ hm)

theorem nodes_at_keeps (f : node → node) (key : String) :
    ∀ (nodes : List (String × node)) (l : String) (n : node), (l, n) ∈ nodes →
      (l, n) ∈ nodes_at nodes key f ∨ (l = key ∧ (key, f n) ∈ nodes_at nodes key f) := by
  intro nodes
  induction nodes with
  | nil => intro l n h; simp at h
  | cons head rest ih =>
    obtain ⟨k, m⟩ := head
    intro l n h
    simp only [nodes_at]
    split
    · rename_i hk
      rcases List.mem_cons.mp h with h | h
      · have h1 : l = k := congrArg Prod.fst h
        have h2 : n = m := congrArg Prod.snd h
        exact Or.inr ⟨by rw [h1, hk], by rw [h2, hk]; exact List.mem_cons_self _ _⟩
      · exact Or.inl (List.mem_cons_of_mem _ h)
    · split
      · exact Or.inl (List.mem_cons_of_mem _ h)
      · rcases List.mem_cons.mp h with h | h
        · exact Or.inl (h ▸ List.mem_cons_self _ _)
        · rcases ih l n h with h' | ⟨h1, h2⟩
          · exact Or.inl (List.mem_cons_of_mem _ h')
          · exact Or.inr ⟨h1, List.mem_cons_of_mem _ h2⟩

theorem nodes_at_has (f : node → node) (key : String) :
    ∀ nodes : List (String × node), ∃ n, (key, f n) ∈ nodes_at nodes key f := by
  intro nodes
  induction nodes with
  | nil => exact ⟨node.init, by simp [nodes_at]⟩
  | cons head rest ih =>
    obtain ⟨k, m⟩ := head
    simp only [nodes_at]
    split
    · rename_i hk
      exact ⟨m, by rw [hk]; exact List.mem_cons_self _ _⟩
    · split
      · exact ⟨node.init, List.mem_cons_self _ _⟩
      · obtain ⟨n, hn⟩ := ih
        exact ⟨n, List.mem_cons_of_mem _ hn⟩


theorem coloured_nodes_at (L : String) (f : node → node) (key : String)
    (nodes : List (String × node))
    (hinv : ∀ e ∈ nodes, e.2.color_ ≠ "" → e.1 = L ∧ e.2.color_ = "green")
    (hf : ∀ n, (f n).color_ = n.color_ ∨ (key = L ∧ (f n).color_ = "green")) :
    ∀ e ∈ nodes_at nodes key f, e.2.color_ ≠ "" → e.1 = L ∧ e.2.color_ = "green" := by
  intro e he hc
  rcases mem_nodes_at f key nodes e he with h | ⟨n, hn, rfl⟩
  · exact hinv e h hc
  · rcases hf n with h | h
    · rcases hn with hn | hn
      · exact absurd (by rw [h, hn]; rfl) hc
      · have := hinv (key, n) hn (by rw [← h]; exact hc)
        exact ⟨this.1, by rw [h]; exact this.2⟩
    · exact h

theorem green_nodes_at (L : String) (f : node → node) (key : String)
    (nodes : List (String × node))
    (hex : ∃ n, (L, n) ∈ nodes ∧ n.color_ = "green")
    (hf : ∀ n, n.color_ = "green" → (f n).color_ = "green") :
    ∃ n, (L, n) ∈ nodes_at nodes key f ∧ n.color_ = "green" := by
  obtain ⟨n, hn, hg⟩ := hex
  rcases nodes_at_keeps f key nodes L n hn with h | ⟨h1, h2⟩
  · exact ⟨n, h, hg⟩
  · exact ⟨f n, by rw [h1]; exact h2, hf n hg⟩

theorem dump_transition_nodes (t : transition) (src dst : type_t) (last_event buffer : String)
    (nodes : List (String × node)) :
    (dump_transition t src dst last_event buffer nodes).2 =
      (if is_likely_current_transition t src dst then
        nodes_at
          (if t.action.isSome && decide (t.event = transition_event.on_exit) then
            nodes_at
              (if t.action.isSome && decide (t.event = transition_event.on_entry) then
                nodes_at nodes (get_name t.src_state) fun n => n.set_entry (get_action_name t)
              else nodes)
              (get_name t.src_state) fun n => n.set_exit (get_action_name t)
          else
            (if t.action.isSome && decide (t.event = transition_event.on_entry) then
              nodes_at nodes (get_name t.src_state) fun n => n.set_entry (get_action_name t)
            else nodes))
          (if get_name t.dst_state = "terminate" then "stop" else get_name t.dst_state)
          fun n => n.set_color "green"
      else
        (if t.action.isSome && decide (t.event = transition_event.on_exit) then
          nodes_at
            (if t.action.isSome && decide (t.event = transition_event.on_entry) then
              nodes_at nodes (get_name t.src_state) fun n => n.set_entry (get_action_name t)
            else nodes)
            (get_name t.src_state) fun n => n.set_exit (get_action_name t)
        else
          (if t.action.isSome && decide (t.event = transition_event.on_entry) then
            nodes_at nodes (get_name t.src_state) fun n => n.set_entry (get_action_name t)
          else nodes))) := rfl

theorem dump_transition_coloured (L : String) (t : transition) (src dst : type_t)
    (last_event buffer : String) (nodes : List (String × node))
    (hL : L = if get_name dst = "terminate" then "stop" else get_name dst)
    (hinv : ∀ e ∈ nodes, e.2.color_ ≠ "" → e.1 = L ∧ e.2.color_ = "green") :
    ∀ e ∈ (dump_transition t src dst last_event buffer nodes).2,
      e.2.color_ ≠ "" → e.1 = L ∧ e.2.color_ = "green" := by
  rw [dump_transition_nodes]
  have h1 : ∀ e ∈ (if t.action.isSome && decide (t.event = transition_event.on_entry) then
      nodes_at nodes (get_name t.src_state) fun n => n.set_entry (get_action_name t)
      else nodes), e.2.color_ ≠ "" → e.1 = L ∧ e.2.color_ = "green" := by
    split
    · exact coloured_nodes_at L _ _ nodes hinv (fun n => Or.inl rfl)
    · exact hinv
  have h2 : ∀ e ∈ (if t.action.isSome && decide (t.event = transition_event.on_exit) then
      nodes_at
        (if t.action.isSome && decide (t.event = transition_event.on_entry) then
          nodes_at nodes (get_name t.src_state) fun n => n.set_entry (get_action_name t)
        else nodes)
        (get_name t.src_state) fun n => n.set_exit (get_action_name t)
      else
        (if t.action.isSome && decide (t.event = transition_event.on_entry) then
          nodes_at nodes (get_name t.src_state) fun n => n.set_entry (get_action_name t)
        else nodes)), e.2.color_ ≠ "" → e.1 = L ∧ e.2.color_ = "green" := by
    split
    · exact coloured_nodes_at L _ _ _ h1 (fun n => Or.inl rfl)
    · exact h1
  split
  · rename_i hc
    simp only [is_likely_current_transition, Bool.and_eq_true, decide_eq_true_eq] at hc
    refine coloured_nodes_at L _ _ _ h2 (fun n => Or.inr ⟨?_, rfl⟩)
    rw [hL, hc.1]
  · exact h2

theorem dump_transition_green_kept (L : String) (t : transition) (src dst : type_t)
    (last_event buffer : String) (nodes : List (String × node))
    (hex : ∃ n, (L, n) ∈ nodes ∧ n.color_ = "green") :
    ∃ n, (L, n) ∈ (dump_transition t src dst last_event buffer nodes).2 ∧ n.color_ = "green" := by
  rw [dump_transition_nodes]
  have h1 : ∃ n, (L, n) ∈ (if t.action.isSome && decide (t.event = transition_event.on_entry)
      then nodes_at nodes (get_name t.src_state) fun n => n.set_entry (get_action_name t)
      else nodes) ∧ n.color_ = "green" := by
    split
    · exact green_nodes_at L _ _ nodes hex (fun n h => h)
    · exact hex
  have h2 : ∃ n, (L, n) ∈ (if t.action.isSome && decide (t.event = transition_event.on_exit) then
      nodes_at
        (if t.action.isSome && decide (t.event = transition_event.on_entry) then
          nodes_at nodes (get_name t.src_state) fun n => n.set_entry (get_action_name t)
        else nodes)
        (get_name t.src_state) fun n => n.set_exit (get_action_name t)
      else
        (if t.action.isSome && decide (t.event = transition_event.on_entry) then
          nodes_at nodes (get_name t.src_state) fun n => n.set_entry (get_action_name t)
        else nodes)) ∧ n.color_ = "green" := by
    split
    · exact green_nodes_at L _ _ _ h1 (fun n h => h)
    · exact h1
  split
  · exact green_nodes_at L _ _ _ h2 (fun n _ => rfl)
  · exact h2

theorem dump_transition_green_new (t : transition) (src dst : type_t)
    (last_event buffer : String) (nodes : List (String × node))
    (hsrc : t.src_state = src) (hdst : t.dst_state = dst) :
    ∃ n, ((if get_name dst = "terminate" then "stop" else get_name dst), n) ∈
      (dump_transition t src dst last_event buffer nodes).2 ∧ n.color_ = "green" := by
  rw [dump_transition_nodes]
  have hc : is_likely_current_transition t src dst = true := by
    simp [is_likely_current_transition, hsrc, hdst]
  rw [if_pos hc, hdst]
  obtain ⟨n, hn⟩ := nodes_at_has (fun n => n.set_color "green")
    (if get_name dst = "terminate" then "stop" else get_name dst)
    (if t.action.isSome && decide (t.event = transition_event.on_exit) then
      nodes_at
        (if t.action.isSome && decide (t.event = transition_event.on_entry) then
          nodes_at nodes (get_name t.src_state) fun n => n.set_entry (get_action_name t)
        else nodes)
        (get_name t.src_state) fun n => n.set_exit (get_action_name t)
      else
        (if t.action.isSome && decide (t.event = transition_event.on_entry) then
          nodes_at nodes (get_name t.src_state) fun n => n.set_entry (get_action_name t)
        else nodes))
  exact ⟨_, hn, rfl⟩


theorem dump_transitions_cons (t : transition) (ts : List transition) (src dst : type_t)
    (last_event buffer : String) (nodes : List (String × node)) :
    dump_transitions (t :: ts) src dst last_event buffer nodes =
      dump_transitions ts src dst last_event
        (dump_transition t src dst last_event buffer nodes).1
        (dump_transition t src dst last_event buffer nodes).2 := rfl

theorem dump_transitions_coloured (L : String) (src dst : type_t) (last_event : String)
    (hL : L = if get_name dst = "terminate" then "stop" else get_name dst) :
    ∀ (ts : List transition) (buffer : String) (nodes : List (String × node)),
      (∀ e ∈ nodes, e.2.color_ ≠ "" → e.1 = L ∧ e.2.color_ = "green") →
      ∀ e ∈ (dump_transitions ts src dst last_event buffer nodes).2,
        e.2.color_ ≠ "" → e.1 = L ∧ e.2.color_ = "green" := by
  intro ts
  induction ts with
  | nil => intro buffer nodes hinv; exact hinv
  | cons t ts ih =>
    intro buffer nodes hinv
    rw [dump_transitions_cons]
    exact ih _ _ (dump_transition_coloured L t src dst last_event buffer nodes hL hinv)

theorem dump_transitions_green_kept (L : String) (src dst : type_t) (last_event : String) :
    ∀ (ts : List transition) (buffer : String) (nodes : List (String × node)),
      (∃ n, (L, n) ∈ nodes ∧ n.color_ = "green") →
      ∃ n, (L, n) ∈ (dump_transitions ts src dst last_event buffer nodes).2 ∧
        n.color_ = "green" := by
  intro ts
  induction ts with
  | nil => intro buffer nodes hex; exact hex
  | cons t ts ih =>
    intro buffer nodes hex
    rw [dump_transitions_cons]
    exact ih _ _ (dump_transition_green_kept L t src dst last_event buffer nodes hex)

theorem dump_transitions_green (src dst : type_t) (last_event : String) (t : transition)
    (hsrc : t.src_state = src) (hdst : t.dst_state = dst) :
    ∀ (ts : List transition) (buffer : String) (nodes : List (String × node)), t ∈ ts →
      ∃ n, ((if get_name dst = "terminate" then "stop" else get_name dst), n) ∈
        (dump_transitions ts src dst last_event buffer nodes).2 ∧ n.color_ = "green" := by
  intro ts
  induction ts with
  | nil => intro buffer nodes h; simp at h
  | cons head ts ih =>
    intro buffer nodes h
    rw [dump_transitions_cons]
    rcases List.mem_cons.mp h with h | h
    · subst h
      exact dump_transitions_green_kept _ src dst last_event ts _ _
        (dump_transition_green_new t src dst last_event buffer nodes hsrc hdst)
    · exact ih _ _ h

theorem dump_transitions_uncoloured (src dst : type_t) (last_event : String) :
    ∀ (ts : List transition) (buffer : String) (nodes : List (String × node)),
      (∀ t ∈ ts, ¬ (t.src_state = src ∧ t.dst_state = dst)) →
      (∀ e ∈ nodes, e.2.color_ = "") →
      ∀ e ∈ (dump_transitions ts src dst last_event buffer nodes).2, e.2.color_ = "" := by
  intro ts
  induction ts with
  | nil => intro buffer nodes _ hinv; exact hinv
  | cons t ts ih =>
    intro buffer nodes hno hinv
    rw [dump_transitions_cons]
    refine ih _ _ (fun t' ht' => hno t' (List.mem_cons_of_mem _ ht')) ?_
    have hc : is_likely_current_transition t src dst = false := by
      have := hno t (List.mem_cons_self _ _)
      simp only [is_likely_current_transition, Bool.and_eq_false_iff, decide_eq_false_iff_not]
      by_cases hd : dst = t.dst_state
      · exact Or.inr (fun hs => this ⟨hs.symm, hd.symm⟩)
      · exact Or.inl hd
    have hkeep : ∀ (key : String) (f : node → node) (m : List (String × node)),
        (∀ n, (f n).color_ = n.color_) → (∀ e ∈ m, e.2.color_ = "") →
        ∀ e ∈ nodes_at m key f, e.2.color_ = "" := by
      intro key f m hf hm e he
      rcases mem_nodes_at f key m e he with h | ⟨n, hn, rfl⟩
      · exact hm e h
      · rcases hn with hn | hn
        · rw [hf n, hn]; rfl
        · rw [hf n]; exact hm (key, n) hn
    rw [dump_transition_nodes, hc]
    simp only [Bool.false_eq_true, if_false]
    have h1 : ∀ e ∈ (if t.action.isSome && decide (t.event = transition_event.on_entry) then
        nodes_at nodes (get_name t.src_state) fun n => n.set_entry (get_action_name t)
        else nodes), e.2.color_ = "" := by
      split
      · exact hkeep _ _ nodes (fun n => rfl) hinv
      · exact hinv
    split
    · exact hkeep _ _ _ (fun n => rfl) h1
    · exact h1

theorem foldl_lines_append (lines : List (String × node)) :
    ∀ buffer : String, ∃ post : String,
      lines.foldl (fun buffer entry => buffer ++ (entry.2.get_dot_format entry.1 ++ " \n"))
        buffer = buffer ++ post := by
  induction lines with
  | nil => intro buffer; exact ⟨"", by simp⟩
  | cons e rest ih =>
    intro buffer
    obtain ⟨post, hpost⟩ := ih (buffer ++ (e.2.get_dot_format e.1 ++ " \n"))
    exact ⟨(e.2.get_dot_format e.1 ++ " \n") ++ post, by
      rw [List.foldl_cons, hpost, String.append_assoc]⟩

theorem foldl_lines_mem (lines : List (String × node)) (e : String × node) (he : e ∈ lines)
    (buffer : String) :
    ∃ pre post : String,
      lines.foldl (fun buffer entry => buffer ++ (entry.2.get_dot_format entry.1 ++ " \n"))
        buffer = pre ++ (e.2.get_dot_format e.1 ++ " \n") ++ post := by
  obtain ⟨l1, l2, rfl⟩ := List.append_of_mem he
  rw [List.foldl_append, List.foldl_cons]
  obtain ⟨post, hpost⟩ := foldl_lines_append l2
    (List.foldl (fun buffer entry => buffer ++ (entry.2.get_dot_format entry.1 ++ " \n"))
      buffer l1 ++ (e.2.get_dot_format e.1 ++ " \n"))
  exact ⟨_, post, hpost⟩

theorem get_dot_format_green (n : node) (label : String) (h : n.color_ = "green") :
    n.get_dot_format label =
      label ++ " [ label = \" " ++ label ++ " " ++
        (if n.entry_ = "" then "" else " \n entry / " ++ n.entry_ ++ " ") ++ " " ++
        (if n.exit_ = "" then "" else " \n exit / " ++ n.exit_ ++ " ") ++ " \" " ++
        " , color = \"green\"" ++ " ]" := by
  simp only [node.get_dot_format, h]
  rfl


theorem run_cons (transitions : List transition) (self : interface) (c : call)
    (calls : List call) :
    interface.run transitions self (c :: calls) =
      interface.run transitions (interface.step transitions self c) calls := rfl

theorem most_recent_event_cons (c : call) (calls : List call) :
    most_recent_event (c :: calls) =
      match most_recent_event calls with
      | some event => some event
      | none =>
        match c with
        | call.log_process_event event => some event
        | _ => none := by
  simp only [most_recent_event, List.reverse_cons, List.findSome?_append]
  cases List.findSome? _ calls.reverse with
  | none => cases c <;> simp [List.findSome?]
  | some e => simp

theorem run_last_event (transitions : List transition) :
    ∀ (calls : List call) (self : interface),
      (interface.run transitions self calls).last_event_ =
        match most_recent_event calls with
        | some event => extract_event_type event
        | none => self.last_event_ := by
  intro calls
  induction calls with
  | nil => intro self; rfl
  | cons c calls ih =>
    intro self
    rw [run_cons, ih, most_recent_event_cons]
    cases most_recent_event calls with
    | some e => rfl
    | none => cases c <;> rfl

theorem log_state_change_reports (transitions : List transition) (self : interface)
    (calls : List call) (src dst : type_t) :
    ((interface.run transitions self calls).log_state_change transitions src dst).impl_ =
      (interface.run transitions self calls).impl_ ++
        [impl_call.on_state_change (get_name src) (get_name dst)
            (match most_recent_event calls with
              | some event => extract_event_type event
              | none => self.last_event_),
          impl_call.dot_format (dump transitions src dst
            (match most_recent_event calls with
              | some event => extract_event_type event
              | none => self.last_event_))] ∧
    interface.init.last_event_ = "" ∧
    (most_recent_event calls = none →
      (interface.run transitions interface.init calls).last_event_ = "") ∧
    (∀ event, (self.log_process_event event).last_event_ = extract_event_type event) ∧
    (∀ guard event result, (self.log_guard guard event result).last_event_ = self.last_event_ ∧
      (self.log_guard guard event result).impl_ = self.impl_) ∧
    (∀ action event, (self.log_action action event).last_event_ = self.last_event_ ∧
      (self.log_action action event).impl_ = self.impl_) ∧
    (self.log_state_change transitions src dst).last_event_ = self.last_event_ := by
  refine ⟨?_, rfl, ?_, fun _ => rfl, fun _ _ _ => ⟨rfl, rfl⟩, fun _ _ => ⟨rfl, rfl⟩, rfl⟩
  · rw [← run_last_event transitions calls self]
    simp [interface.log_state_change]
  · intro h
    rw [run_last_event, h]
    rfl

theorem extract_event_type_designed (t first second : type_t) :
    extract_event_type (event_t.other t) = get_name t ∧
    extract_event_type (event_t.on_entry first second) = get_name second ∧
    extract_event_type (event_t.on_exit first second) = get_name second ∧
    extract_event_type_any (event_t.pair t first second) = get_name t ∧
    extract_event_type (event_t.pair t first second) = get_name second :=
  ⟨rfl, rfl, rfl, rfl, rfl⟩

/-- C13: on a fresh interface, `log_process_event` with an event of the type
`my_pair<g2, running>`, a class template of two type parameters with the member `name`
"my_pair", followed by `log_guard`, `log_action` and `log_state_change` from `not_running`
to `running`, passes to `on_state_change` the names "not_running" and "running" of the two
states and, as the event, "running", the name of the second template argument. The name of
the event is "my_pair": that is what `get_name` gives for its type and what the second
overload of `extract_event_type` returns for it, and it is not what the sink receives. -/
theorem log_state_change_pair_event :
    get_name (type_t.class_ "my_pair<g2, running>" (some "my_pair") "my_pair<g2, running>") =
      "my_pair" ∧
    extract_event_type_any
      (event_t.pair (type_t.class_ "my_pair<g2, running>" (some "my_pair") "my_pair<g2, running>")
        (type_t.class_ "g2" none "g2") running) = "my_pair" ∧
    extract_event_type
      (event_t.pair (type_t.class_ "my_pair<g2, running>" (some "my_pair") "my_pair<g2, running>")
        (type_t.class_ "g2" none "g2") running) = "running" ∧
    (interface.run control_modes interface.init
      [call.log_process_event
        (event_t.pair
          (type_t.class_ "my_pair<g2, running>" (some "my_pair") "my_pair<g2, running>")
          (type_t.class_ "g2" none "g2") running),
       call.log_guard (guard_t.other (type_t.class_ "g2" none "g2"))
        (event_t.pair
          (type_t.class_ "my_pair<g2, running>" (some "my_pair") "my_pair<g2, running>")
          (type_t.class_ "g2" none "g2") running) true,
       call.log_action (type_t.class_ "a1" none "a1")
        (event_t.pair
          (type_t.class_ "my_pair<g2, running>" (some "my_pair") "my_pair<g2, running>")
          (type_t.class_ "g2" none "g2") running),
       call.log_state_change not_running running]).impl_ =
      [impl_call.on_state_change "not_running" "running" "running",
       impl_call.dot_format (dump control_modes not_running running "running")] ∧
    impl_call.on_state_change "not_running" "running" "running" ≠
      impl_call.on_state_change "not_running" "running" "my_pair" :=
  ⟨rfl, rfl, rfl, rfl, by decide⟩

/-- C14: when the transition table has a transition whose source state is `src` and whose
destination state is `dst`, the text of `dump` holds the line of a node coloured green,
ending in the attribute `color = "green"`, under the label the dump gives `dst`, its name
or "stop" for the name "terminate"; no node under another label is coloured, that node
has no other colour, and a table without such a transition colours no node. -/
theorem dump_colours_destination (transitions : List transition) (src dst : type_t)
    (last_event : String) (t : transition) (ht : t ∈ transitions)
    (hsrc : t.src_state = src) (hdst : t.dst_state = dst) :
    (∃ n, ((if get_name dst = "terminate" then "stop" else get_name dst), n) ∈
        dump_nodes transitions src dst last_event ∧
      n.color_ = "green" ∧
      (∃ pre post, dump transitions src dst last_event =
        pre ++ (n.get_dot_format (if get_name dst = "terminate" then "stop" else get_name dst)
          ++ " \n") ++ post) ∧
      (∃ body, n.get_dot_format (if get_name dst = "terminate" then "stop" else get_name dst) =
        body ++ " , color = \"green\"" ++ " ]")) ∧
    (∀ e ∈ dump_nodes transitions src dst last_event, e.2.color_ ≠ "" →
      e.1 = (if get_name dst = "terminate" then "stop" else get_name dst) ∧
      e.2.color_ = "green") ∧
    (∀ other : List transition,
      (∀ t' ∈ other, ¬ (t'.src_state = src ∧ t'.dst_state = dst)) →
      ∀ e ∈ dump_nodes other src dst last_event, e.2.color_ = "") := by
  refine ⟨?_, ?_, ?_⟩
  · obtain ⟨n, hn, hg⟩ := dump_transitions_green src dst last_event t hsrc hdst transitions
      "digraph \x7b\n\n" [] ht
    refine ⟨n, hn, hg, ?_, ⟨_, get_dot_format_green n _ hg⟩⟩
    obtain ⟨pre, post, h⟩ := foldl_lines_mem _ _ hn
      (dump_transitions transitions src dst last_event "digraph \x7b\n\n" []).1
    exact ⟨pre, post ++ "\n\x7d\n", by
      simp only [dump]
      rw [h, String.append_assoc]⟩
  · exact dump_transitions_coloured _ src dst last_event rfl transitions _ []
      (fun e he => absurd he (List.not_mem_nil e))
  · intro other hno
    exact dump_transitions_uncoloured src dst last_event other _ [] hno
      (fun e he => absurd he (List.not_mem_nil e))

/-- An instance of `dump_colours_destination`: the table of the example in the header at
the change from `not_running` to `running` on the event `run`. -/
theorem dump_colours_destination_witness :
    dump control_modes not_running running "run" =
      "digraph \x7b\n\nstart -> not_running\n" ++
      "not_running -> running [label=\"run \", color=\"gold\"]\n\n" ++
      "running -> not_running [label=\"stop \", color=\"lightblue\"]\n\n" ++
      "running [ label = \" running   \"  , color = \"green\" ] \n\n\x7d\n" ∧
    (∀ e ∈ dump_nodes control_modes not_running running "run", e.2.color_ ≠ "" →
      e.1 = "running" ∧ e.2.color_ = "green") :=
  ⟨rfl,
   (dump_colours_destination control_modes not_running running "run"
      ⟨not_running, running, transition_event.event run, none, none, true⟩
      (List.mem_cons_self _ _) rfl rfl).2.1⟩

/-- C20: the guard name of a conjunction `and_` of one or more guards is the guard names of
its guards in order joined by " && ", that of a disjunction `or_` the same joined by
" || ", that of a negation `not_` is "!" followed by what `get_name` gives for the negated
type, and that of any other guard is the filtered name, which is "lambda" when the name
contains "(lambda" or "<lambda" and the name itself otherwise. -/
theorem get_guard_name_joined (ts : guard_pack) (inner t : type_t) :
    ts.to_list ≠ [] ∧
    get_guard_name (guard_t.and_ ts) = " && ".intercalate (ts.to_list.map get_guard_name) ∧
    get_guard_name (guard_t.or_ ts) = " || ".intercalate (ts.to_list.map get_guard_name) ∧
    get_guard_name (guard_t.not_ inner) = "!" ++ get_name inner ∧
    get_guard_name (guard_t.other t) = get_filtered_name t ∧
    get_filtered_name t =
      (if "(lambda".data <:+: (get_name t).data ∨ "<lambda".data <:+: (get_name t).data
        then "lambda" else get_name t) := by
  refine ⟨?_, ?_, ?_, ?_, ?_, ?_⟩
  · obtain ⟨g, gs, h⟩ := to_list_ne_nil ts
    rw [h]
    exact List.cons_ne_nil g gs
  · rw [get_guard_name, and_guard_get_name]
  · rw [get_guard_name, or_guard_get_name]
  · rw [get_guard_name]
  · rw [get_guard_name]
  · simp only [get_filtered_name, Bool.or_eq_true, contains_iff]

end sml
